import Mathlib

/-!
Verification of the core of the `video-to-ascii-converter` repository: the
pixel-to-symbol converter (`preprocessor/src/asciiConverter.ts`,
`src/core/ASCIIRenderer.ts`), the frame-delta codec
(`preprocessor/src/compress.ts`, `src/components/ASCIIHero/player.ts`) and the
binary wire format (`preprocessor/src/outputFormats.ts` writer and the runtime
`decodeBinary` reader).

Conventions of the shallow embedding:
* JavaScript strings of single-code-unit characters are modeled as `List Nat`
  of their character codes; `Uint8Array` buffers are `List Nat` whose entries
  are below 256 by construction (a `Uint8Array` store truncates mod 256, which
  the model makes explicit with `% 256`).
* Reading `s[i]` / `bytes[i]` out of range yields `undefined` in JavaScript;
  where the source only compares such reads or coalesces them with `?? 0`,
  the model uses `List.get?` (so `undefined` is `none`) or `List.getD _ 0`.
* JavaScript numbers are modeled as `Nat` (all quantities in scope are
  non-negative integers) or `ℚ` where the source computes fractional cell
  geometry.  Float rounding caveats are noted at each definition.
-/

/- Batteries marks the `Rat` field operations irreducible; restore the default
transparency locally so that concrete rational computations evaluate. -/
attribute [local semireducible] Rat.mul Rat.add Rat.sub Rat.inv Rat.ofScientific

namespace AsciiVideo

/-- Color mode of an animation, `'mono' | 'rgb' | 'palette'` in
`preprocessor/src/types.ts` and the player's `types.ts`. -/
inductive ColorMode where
  | mono
  | rgb
  | palette
deriving DecidableEq, Repr

/-- Test `meta.colorMode !== 'mono'`, the include-colors test used by the CLI
pipeline, `writeBinary`, `decodeBinary` and the player. -/
def ColorMode.includeColors : ColorMode → Bool
  | .mono => false
  | _ => true

/-- One entry of a delta frame (`DeltaChange` in `types.ts`): flattened cell
index, the new symbol's character code, and optional RGB components (the
`colorR`/`colorG`/`colorB` properties are present only when the encoder ran
with colors; an absent property is `none`). -/
structure DeltaChange where
  index : Nat
  char : Nat
  colorR : Option Nat := none
  colorG : Option Nat := none
  colorB : Option Nat := none
deriving DecidableEq, Repr

/-- A frame record (`ASCIIFrame` in `types.ts`): either a full snapshot
(symbol codes plus optional flat RGB buffer) or a list of delta changes. -/
inductive ASCIIFrame where
  | full (chars : List Nat) (colors : Option (List Nat))
  | delta (changes : List DeltaChange)
deriving DecidableEq, Repr

/-- Animation metadata (`ASCIIAnimationMeta` in `types.ts`).  `ramp` is the
list of ramp character codes; `palette` is the optional list of palette color
strings (each a list of character codes), carried by the structured formats
but not by the binary format. -/
structure ASCIIAnimationMeta where
  version : Nat
  cols : Nat
  rows : Nat
  fps : Nat
  frameCount : Nat
  duration : ℚ
  colorMode : ColorMode
  ramp : List Nat
  palette : Option (List (List Nat)) := none
deriving DecidableEq, Repr

/-- An animation: metadata plus the ordered frame records. -/
structure ASCIIAnimation where
  asciiMeta : ASCIIAnimationMeta
  frames : List ASCIIFrame
deriving DecidableEq, Repr

/-- A converted frame (`ConvertedFrame` in `asciiConverter.ts`): `chars` is
the row-major list of symbol codes, `colors` the parallel flat RGB list
(three entries per cell). -/
structure ConvertedFrame where
  chars : List Nat
  colors : List Nat
  rows : Nat
  cols : Nat
deriving DecidableEq, Repr

/-! ## Frame-delta codec: `preprocessor/src/compress.ts` -/

/-- Constant `DELTA_THRESHOLD = 0.4` in `compress.ts` (exact as a rational; the
source's `curr.chars.length * 0.4` double computation agrees with the exact
rational comparison for every grid size below `2^50`). -/
def DELTA_THRESHOLD : ℚ := 0.4

/-- Whether cell `i` counts as changed in `computeDelta`'s scan:
`curr.chars[i] !== prev.chars[i]`, or (with colors) any RGB component
differs.  Out-of-range JavaScript indexing yields `undefined`, modeled by
comparing `Option` values. -/
def changedCell (prev curr : ConvertedFrame) (includeColors : Bool) (i : Nat) : Bool :=
  (curr.chars.get? i ≠ prev.chars.get? i) ||
  (includeColors &&
    ((curr.colors.get? (i * 3) ≠ prev.colors.get? (i * 3)) ||
     (curr.colors.get? (i * 3 + 1) ≠ prev.colors.get? (i * 3 + 1)) ||
     (curr.colors.get? (i * 3 + 2) ≠ prev.colors.get? (i * 3 + 2))))

/-- The `DeltaChange` record pushed for a changed cell `i`: the symbol is
`curr.chars[i]` (always in range inside the scan loop), and with colors the
three `curr.colors` components (possibly `undefined`, hence `Option`). -/
def mkChange (curr : ConvertedFrame) (includeColors : Bool) (i : Nat) : DeltaChange :=
  { index := i
    char := curr.chars.getD i 0
    colorR := if includeColors then curr.colors.get? (i * 3) else none
    colorG := if includeColors then curr.colors.get? (i * 3 + 1) else none
    colorB := if includeColors then curr.colors.get? (i * 3 + 2) else none }

/-- The ordered change list collected by `computeDelta`'s row-major scan of
`i = 0 .. curr.chars.length - 1`. -/
def changeList (prev curr : ConvertedFrame) (includeColors : Bool) : List DeltaChange :=
  ((List.range curr.chars.length).filter (changedCell prev curr includeColors)).map
    (mkChange curr includeColors)

/-- Function `computeDelta` (`compress.ts`, lines 11-58): scan for changes, and if
`changes.length > curr.chars.length * DELTA_THRESHOLD` emit a full frame,
otherwise the delta. -/
def computeDelta (prev curr : ConvertedFrame) (includeColors : Bool) : ASCIIFrame :=
  let changes := changeList prev curr includeColors
  if ((changes.length : ℚ) > (curr.chars.length : ℚ) * DELTA_THRESHOLD) then
    .full curr.chars (if includeColors then some curr.colors else none)
  else
    .delta changes

/-- Function `createFullFrame` (`compress.ts`, lines 60-69). -/
def createFullFrame (frame : ConvertedFrame) (includeColors : Bool) : ASCIIFrame :=
  .full frame.chars (if includeColors then some frame.colors else none)

/-- The encode loop of the CLI (`index.ts`, lines 384-388) after the first
frame: each frame is `computeDelta` of the previous converted frame. -/
def deltaChain (includeColors : Bool) : ConvertedFrame → List ConvertedFrame → List ASCIIFrame
  | _, [] => []
  | prev, c :: cs => computeDelta prev c includeColors :: deltaChain includeColors c cs

/-- The CLI encode pipeline over a list of converted frames: the first frame
is always full (`createFullFrame`), the rest are `computeDelta` against the
previous frame. -/
def encodeFrames (includeColors : Bool) : List ConvertedFrame → List ASCIIFrame
  | [] => []
  | g :: gs => createFullFrame g includeColors :: deltaChain includeColors g gs

/-! ## Player frame resolution: `src/components/ASCIIHero/player.ts` -/

/-- One delta-change application from `preDecodeFrames`' inner loop:
`chars[change.index] = change.char` and, with colors,
`currentColors[change.index*3 + k] = change.colorK ?? 0`.  `List.set` is a
no-op out of range, matching `Uint8Array` stores; all indices arising in the
theorems below are in range (where a JavaScript array store past the end
would instead grow the array). -/
def applyChange (includeColors : Bool) (st : List Nat × List Nat) (c : DeltaChange) :
    List Nat × List Nat :=
  (st.1.set c.index c.char,
   if includeColors then
     ((st.2.set (c.index * 3) (c.colorR.getD 0)).set (c.index * 3 + 1)
         (c.colorG.getD 0)).set (c.index * 3 + 2) (c.colorB.getD 0)
   else st.2)

/-- Application of one frame record to the running `(chars, colors)` buffer
pair in `preDecodeFrames`: a full frame replaces the symbol buffer (and, when
colors are on and present, the color buffer); a delta frame applies its
changes in order. -/
def applyFrame (includeColors : Bool) (st : List Nat × List Nat) :
    ASCIIFrame → List Nat × List Nat
  | .full chars colors =>
      (chars,
       if includeColors then
         (match colors with
          | some cs => cs
          | none => st.2)
       else st.2)
  | .delta changes => changes.foldl (applyChange includeColors) st

/-- The running-buffer snapshots accumulated by `preDecodeFrames`' main loop:
the state after each frame record, in order. -/
def runFrames (includeColors : Bool) (st : List Nat × List Nat) :
    List ASCIIFrame → List (List Nat × List Nat)
  | [] => []
  | f :: fs =>
      let st' := applyFrame includeColors st f
      st' :: runFrames includeColors st' fs

/-- Function `preDecodeFrames` (`player.ts`, lines 54-101), at the level of the raw
grid buffers: starting from the unset buffers (`currentChars = ''` and a
zero-filled color buffer of `totalChars * 3` bytes), apply every frame record
and snapshot the state after each.  (The source additionally formats each
snapshot's text with line breaks for display, which is presentation only.) -/
def preDecodeFrames (includeColors : Bool) (totalChars : Nat) (frames : List ASCIIFrame) :
    List (List Nat × List Nat) :=
  runFrames includeColors ([], List.replicate (totalChars * 3) 0) frames

/-- Resolution of a whole animation the way the player's constructor does it:
`includeColors` from the metadata, `totalChars = meta.rows * meta.cols`. -/
def resolveAnimation (a : ASCIIAnimation) : List (List Nat × List Nat) :=
  preDecodeFrames a.asciiMeta.colorMode.includeColors
    (a.asciiMeta.rows * a.asciiMeta.cols) a.frames

/-! ## Pixel-to-symbol conversion: `preprocessor/src/asciiConverter.ts` and
`src/core/ASCIIRenderer.ts` -/

/-- Rec. 709 luma coefficient for red, scaled by 256 (`LUMA_R = 54`). -/
def LUMA_R : Nat := 54

/-- Rec. 709 luma coefficient for green, scaled by 256 (`LUMA_G = 183`). -/
def LUMA_G : Nat := 183

/-- Rec. 709 luma coefficient for blue, scaled by 256 (`LUMA_B = 19`). -/
def LUMA_B : Nat := 19

/-- Fixed-point luminance of an averaged RGB triple:
`(LUMA_R*r + LUMA_G*g + LUMA_B*b) >> 8` (the shift is division by 256). -/
def lumOf (r g b : Nat) : Nat :=
  (LUMA_R * r + LUMA_G * g + LUMA_B * b) / 256

/-- One entry of the luminance-to-ramp lookup table of `asciiConverter.ts`
(and, composed with the invert adjustment, of `ASCIIRenderer.buildLumLUT`):
`Math.min(Math.floor((lum * rampLen) / 256), rampLen - 1)`. -/
def lutIndex (rampLen lum : Nat) : Nat :=
  min ((lum * rampLen) / 256) (rampLen - 1)

/-- Function `ASCIIRenderer.buildLumLUT` (`ASCIIRenderer.ts`, lines 116-127): the
256-entry table mapping luminance to a ramp index, with the invert
adjustment `adjusted = invert ? 255 - lum : lum`. -/
def buildLumLUT (rampLen : Nat) (invert : Bool) : List Nat :=
  (List.range 256).map (fun lum => lutIndex rampLen (if invert then 255 - lum else lum))

/-- Constant `charAspect = 0.5` (`CHAR_ASPECT` in `asciiConverter.ts`,
`CHAR_ASPECT_RATIO` in `aspectRatio.ts`). -/
def charAspect : ℚ := 0.5

/-- An RGBA raster: `data` is the flat pixel buffer (4 entries per pixel,
row-major), as handed to `convertToASCII` / `ASCIIRenderer.render`. -/
structure RasterImage where
  data : List Nat
  width : Nat
  height : Nat
deriving DecidableEq, Repr

/-- The coordinates visited by `for (v = base; v < stop; v += step)` with
`step ≥ 1`: the arithmetic progression `base, base+step, ...` below `stop`. -/
def sampleCoords (base stop step : Nat) : List Nat :=
  (List.range ((stop - base + step - 1) / step)).map (fun k => base + k * step)

/-- Sum of one color channel (`ch ∈ {0,1,2}`) over the sampled pixels of a
cell: `data[(y*width + x)*4 + ch]` accumulated over the sampled rows and
columns.  Out-of-range reads default to 0 (they do not occur for in-bounds
cells). -/
def channelSum (img : RasterImage) (xs ys : List Nat) (ch : Nat) : Nat :=
  (ys.map (fun y => (xs.map (fun x => img.data.getD ((y * img.width + x) * 4 + ch) 0)).sum)).sum

/-- The adaptive sampling stride of one cell (`asciiConverter.ts`, line
550): `step = max(1, floor(sqrt((endX-baseX)*(endY-baseY)/16)))`.
`Math.floor (Math.sqrt (a / 16))` on integer `a` equals `Nat.sqrt (a / 16)`,
and the floored float divisions here are exact for raster-sized operands. -/
def cellStep (baseX endX baseY endY : Nat) : Nat :=
  max 1 (Nat.sqrt ((endX - baseX) * (endY - baseY) / 16))

/-- The clamped sample count of one cell (`if (sampleCount === 0)
sampleCount = 1`): the number of strided sample points, at least 1. -/
def sampleCount (baseX endX baseY endY : Nat) : Nat :=
  if (sampleCoords baseY endY (cellStep baseX endX baseY endY)).length *
      (sampleCoords baseX endX (cellStep baseX endX baseY endY)).length = 0 then 1
  else (sampleCoords baseY endY (cellStep baseX endX baseY endY)).length *
    (sampleCoords baseX endX (cellStep baseX endX baseY endY)).length

/-- The averaged RGB of one cell of `convertToASCII` (`asciiConverter.ts`,
lines 546-566): strided sample sums over the cell rectangle divided by the
clamped sample count, floored (`Math.floor(total / sampleCount)` is exact
integer division for raster-sized operands). -/
def cellAvg (img : RasterImage) (baseX endX baseY endY : Nat) : Nat × Nat × Nat :=
  (channelSum img (sampleCoords baseX endX (cellStep baseX endX baseY endY))
      (sampleCoords baseY endY (cellStep baseX endX baseY endY)) 0 /
    sampleCount baseX endX baseY endY,
   channelSum img (sampleCoords baseX endX (cellStep baseX endX baseY endY))
      (sampleCoords baseY endY (cellStep baseX endX baseY endY)) 1 /
    sampleCount baseX endX baseY endY,
   channelSum img (sampleCoords baseX endX (cellStep baseX endX baseY endY))
      (sampleCoords baseY endY (cellStep baseX endX baseY endY)) 2 /
    sampleCount baseX endX baseY endY)

/-- One cell of `convertToASCII`: pixel-space bounds from the rational cell
geometry (`Math.floor` on non-negative values is `Nat.floor`), averaged RGB,
fixed-point luminance, table lookup, and the emitted symbol code
`ramp[charIndex]`.  The source's 256-entry `lumToChar` table is modeled by
the `lutIndex` function it tabulates (the luminance of a byte-valued raster
is always in range, see the safety claim below). -/
def convertCell (img : RasterImage) (cols : Nat) (ramp : List Nat) (row col : Nat) :
    Nat × (Nat × Nat × Nat) :=
  let cellW : ℚ := (img.width : ℚ) / (cols : ℚ)
  let cellH : ℚ := cellW / charAspect
  let baseY := Nat.floor ((row : ℚ) * cellH)
  let endY := min (Nat.floor ((baseY : ℚ) + cellH)) img.height
  let baseX := Nat.floor ((col : ℚ) * cellW)
  let endX := min (Nat.floor ((baseX : ℚ) + cellW)) img.width
  let avg := cellAvg img baseX endX baseY endY
  let lum := lumOf avg.1 avg.2.1 avg.2.2
  let charIndex := lutIndex ramp.length lum
  (ramp.getD charIndex 0, avg)

/-- Function `convertToASCII` (`asciiConverter.ts`, lines 511-585): rational cell
geometry `cellW = width/cols`, `cellH = cellW/charAspect`,
`rows = floor(height/cellH)`, then the row-major scan emitting one symbol
code and one averaged RGB triple per cell.  The model uses exact rationals
where the source uses doubles; the samples taken can shift by one pixel at
rounding boundaries but every theorem below is insensitive to this.  The
source performs no validation of `cols` or of the raster dimensions; the
model likewise assumes `cols ≥ 1` and `width ≥ 1` wherever a theorem needs
the geometry to be meaningful (a zero-width raster makes the source compute
with `Infinity`/`NaN`, which `ℚ` does not represent). -/
def convertToASCII (img : RasterImage) (cols : Nat) (ramp : List Nat) : ConvertedFrame :=
  let cellW : ℚ := (img.width : ℚ) / (cols : ℚ)
  let cellH : ℚ := cellW / charAspect
  let rows := Nat.floor ((img.height : ℚ) / cellH)
  let cells := (List.range rows).flatMap
    (fun row => (List.range cols).map (fun col => convertCell img cols ramp row col))
  { chars := cells.map (·.1)
    colors := cells.flatMap (fun c => [c.2.1, c.2.2.1, c.2.2.2])
    rows := rows
    cols := cols }

/-! ## Renderer options: `src/core/ASCIIRenderer.ts` -/

/-- The renderer's color mode, `'mono' | 'color' | 'palette'`. -/
inductive RenderColorMode where
  | mono
  | color
  | palette
deriving DecidableEq, Repr

/-- The named ramp presets of `ASCII_RAMPS`. -/
inductive RampName where
  | minimal
  | standard
  | detailed
  | blocks
  | binaryDigits
deriving DecidableEq, Repr

/-- The `ASCII_RAMPS` table, as lists of character codes:
`minimal = " .:+*#@"`, `standard = " .:-=+*#%@"`, the 70-symbol detailed
ramp, `blocks = " ░▒▓█"`, `binary = "01"`. -/
def ASCII_RAMPS : RampName → List Nat
  | .minimal => [32, 46, 58, 43, 42, 35, 64]
  | .standard => [32, 46, 58, 45, 61, 43, 42, 35, 37, 64]
  | .detailed =>
      [32, 46, 39, 96, 94, 34, 44, 58, 59, 73, 108, 33, 105, 62, 60, 126, 43, 95, 45,
       63, 93, 91, 125, 123, 49, 41, 40, 124, 92, 47, 116, 102, 106, 114, 120, 110,
       117, 118, 99, 122, 88, 89, 85, 74, 67, 76, 81, 48, 79, 90, 109, 119, 113, 112,
       100, 98, 107, 104, 97, 111, 42, 35, 77, 87, 38, 56, 37, 66, 64, 36]
  | .blocks => [32, 9617, 9618, 9619, 9608]
  | .binaryDigits => [48, 49]

/-- A ramp argument to `setOptions`: either a preset name or a custom
string. -/
inductive RampArg where
  | preset (p : RampName)
  | custom (s : List Nat)
deriving DecidableEq, Repr

/-- Resolution `options.ramp in ASCII_RAMPS ? ASCII_RAMPS[options.ramp] : options.ramp`
(`setOptions`, lines 170-172). -/
def resolveRamp : RampArg → List Nat
  | .preset p => ASCII_RAMPS p
  | .custom s => s

/-- The renderer's option state: the stored ramp string, color mode, invert
flag and column count.  The derived caches (`rampCodes`, the luminance LUT,
glyph caches) are functions of these fields (`rampCodes` is the ramp itself,
the LUT is `buildLumLUT ramp.length invert`) and are not duplicated here.
`cols` is a JavaScript number, modeled as `ℚ`. -/
structure RendererState where
  ramp : List Nat
  colorMode : RenderColorMode
  invert : Bool
  cols : ℚ
deriving DecidableEq, Repr

/-- A `Partial<RenderOptions>` argument to `setOptions`: absent properties
are `none`. -/
structure RenderOptionsPatch where
  cols : Option ℚ := none
  ramp : Option RampArg := none
  colorMode : Option RenderColorMode := none
  invert : Option Bool := none
deriving DecidableEq, Repr

/-- Function `ASCIIRenderer.setOptions` (`ASCIIRenderer.ts`, lines 165-182): each
provided option updates its field; `cols` is clamped by
`Math.max(20, Math.min(200, options.cols))`. -/
def setOptions (st : RendererState) (o : RenderOptionsPatch) : RendererState :=
  let st1 := match o.cols with
    | some c => { st with cols := max 20 (min 200 c) }
    | none => st
  let st2 := match o.ramp with
    | some r => { st1 with ramp := resolveRamp r }
    | none => st1
  let st3 := match o.colorMode with
    | some m => { st2 with colorMode := m }
    | none => st2
  match o.invert with
  | some i => { st3 with invert := i }
  | none => st3

/-- The sampling grid computed by `calculateSamplingGrid`
(`aspectRatio.ts`). -/
structure SamplingGrid where
  cols : ℚ
  rows : ℤ
  cellW : ℚ
  cellH : ℚ
deriving DecidableEq, Repr

/-- Function `calculateSamplingGrid(videoWidth, videoHeight, targetCols)`
(`aspectRatio.ts`, lines 20-30): `cellW = videoWidth/targetCols`,
`cellH = cellW/CHAR_ASPECT_RATIO`, `rows = floor(videoHeight/cellH)`, and
`cols` is returned as the `targetCols` argument unchanged. -/
def calculateSamplingGrid (videoWidth videoHeight targetCols : ℚ) : SamplingGrid :=
  let cellW := videoWidth / targetCols
  let cellH := cellW / charAspect
  { cols := targetCols, rows := Int.floor (videoHeight / cellH), cellW := cellW, cellH := cellH }

/-! ## Binary wire format: writer `preprocessor/src/outputFormats.ts`,
reader `decodeBinary` of the runtime component -/

/-- The iteration of `encodeVarInt`'s loop body
(`while (n > 127) { bytes.push((n & 0x7f) | 0x80); n >>>= 7; } bytes.push(n)`
in `compress.ts`, lines 74-82): `n & 0x7f` is `n % 128`, setting bit 7 adds
128, and `n >>> 7` is `n / 128`.  The `fuel` argument only bounds the number
of iterations; since each step divides `n` by 128, fuel `n` is never
exhausted for the initial call `encodeVarIntFuel n n`. -/
def encodeVarIntFuel : Nat → Nat → List Nat
  | 0, n => [n]
  | fuel + 1, n => if 127 < n then (n % 128 + 128) :: encodeVarIntFuel fuel (n / 128) else [n]

/-- Function `encodeVarInt` (`compress.ts`, lines 74-82).  JavaScript's bitwise
operators work on 32-bit integers; the model is exact, and coincides with
the source for `n < 2^31`, which covers every change count and cell index of
a representable animation. -/
def encodeVarInt (n : Nat) : List Nat :=
  encodeVarIntFuel n n

/-- Function `decodeVarInt` (`compress.ts` lines 87-101 and its copy in the runtime
decoder): accumulate 7 payload bits per byte, least significant first, while
bit 7 is set.  The source tracks `offset`/`bytesRead`; the model consumes a
list and returns the unread suffix.  A read past the end of the stream
yields `undefined` in JavaScript, which contributes 0 payload bits and
clears the continuation test — the `[]` case.  As with `encodeVarInt`, the
exact model coincides with the 32-bit source arithmetic for results below
`2^31`. -/
def readVarInt : List Nat → Nat × List Nat
  | [] => (0, [])
  | b :: rest =>
      if 128 ≤ b then
        let vr := readVarInt rest
        (b % 128 + 128 * vr.1, vr.2)
      else (b % 128, rest)

/-- One frame record serialized by `writeBinary` (`outputFormats.ts`, lines
219-262): type byte 0 plus the symbol codes (and, in a color mode, the flat
RGB buffer when present) for a full frame; type byte 1, the varint change
count and the per-change records for a delta frame.  `Uint8Array` stores
truncate to a byte, hence the `% 256`; a missing color component is written
as `change.colorR ?? 0`. -/
def writeFrame (includeColors : Bool) : ASCIIFrame → List Nat
  | .full chars colors =>
      0 :: (chars.map (· % 256) ++
        (if includeColors then
          (match colors with
           | some cs => cs.map (· % 256)
           | none => [])
         else []))
  | .delta changes =>
      1 :: (encodeVarInt changes.length ++
        changes.flatMap (fun c =>
          encodeVarInt c.index ++ [c.char % 256] ++
          (if includeColors then
            [c.colorR.getD 0 % 256, c.colorG.getD 0 % 256, c.colorB.getD 0 % 256]
           else [])))

/-- The byte written at offset 5 for the color mode:
`mono ? 0 : rgb ? 1 : 2`. -/
def colorModeByte : ColorMode → Nat
  | .mono => 0
  | .rgb => 1
  | .palette => 2

/-- The color mode decoded from the offset-5 byte:
`0 → mono, 1 → rgb, _ → palette`. -/
def byteToColorMode (b : Nat) : ColorMode :=
  if b = 0 then .mono else if b = 1 then .rgb else .palette

/-- Function `writeBinary` (`outputFormats.ts`, lines 185-276), as the byte stream it
assembles (the source then writes it to a file): the 32-byte header — magic
`"ASCI"`, version, color-mode byte, `cols`/`rows`/`frameCount` as
little-endian `uint16` (`setUint16(o, v, true)` stores `v % 256` then
`v / 256 % 256`), `fps` and `ramp.length` as single bytes, 18 reserved zero
bytes — followed by the ramp character codes and the serialized frame
records.  The optional `meta.palette` is not serialized. -/
def writeBinary (a : ASCIIAnimation) : List Nat :=
  let m := a.asciiMeta
  [65, 83, 67, 73,
   m.version % 256,
   colorModeByte m.colorMode,
   m.cols % 256, m.cols / 256 % 256,
   m.rows % 256, m.rows / 256 % 256,
   m.fps % 256,
   m.frameCount % 256, m.frameCount / 256 % 256,
   m.ramp.length % 256] ++ List.replicate 18 0 ++
  m.ramp.map (· % 256) ++
  a.frames.flatMap (writeFrame m.colorMode.includeColors)

/-- One delta change parsed by the runtime decoder (`decodeBinary`, lines
109-124): varint index, one symbol byte, and in a color mode three RGB
bytes.  `String.fromCharCode` of an out-of-range (`undefined`) read yields
the code-0 character, hence `headD 0`; an out-of-range color read stores
`undefined` in the change record, hence `Option` via `head?`. -/
def readChange (includeColors : Bool) (l : List Nat) : DeltaChange × List Nat :=
  let ir := readVarInt l
  let ch := ir.2.headD 0
  if includeColors then
    ({ index := ir.1, char := ch,
       colorR := (ir.2.drop 1).head?, colorG := (ir.2.drop 2).head?,
       colorB := (ir.2.drop 3).head? }, ir.2.drop 4)
  else
    ({ index := ir.1, char := ch }, ir.2.drop 1)

/-- The change-reading loop of the runtime decoder: `changeCount`
iterations of `readChange`. -/
def readChanges (includeColors : Bool) : Nat → List Nat → List DeltaChange × List Nat
  | 0, l => ([], l)
  | k + 1, l =>
      let cr := readChange includeColors l
      let rest := readChanges includeColors k cr.2
      (cr.1 :: rest.1, rest.2)

/-- The full-frame body parsed by the runtime decoder (`decodeBinary`, lines
89-101): `totalChars` symbol bytes and, in a color mode, `totalChars * 3`
color bytes (`slice` clamps at the end of the stream, and the running offset
advances regardless — hence `take`/`drop`). -/
def readFullFrame (includeColors : Bool) (totalChars : Nat) (rest : List Nat) :
    ASCIIFrame × List Nat :=
  if includeColors then
    (.full (rest.take totalChars) (some ((rest.drop totalChars).take (totalChars * 3))),
     (rest.drop totalChars).drop (totalChars * 3))
  else
    (.full (rest.take totalChars) none, rest.drop totalChars)

/-- The delta-frame body parsed by the runtime decoder (`decodeBinary`,
lines 102-127): varint change count, then that many change records. -/
def readDeltaBody (includeColors : Bool) (rest : List Nat) : ASCIIFrame × List Nat :=
  (.delta (readChanges includeColors (readVarInt rest).1 (readVarInt rest).2).1,
   (readChanges includeColors (readVarInt rest).1 (readVarInt rest).2).2)

/-- One frame record parsed by the runtime decoder (`decodeBinary`, lines
86-128): dispatch on the type byte (`=== 0` selects a full frame).  Any
other type byte — including the `undefined` read of an exhausted stream,
which is not `=== 0` — parses a delta frame; on an empty stream its varint
count reads 0, so the `[]` case yields `delta []`. -/
def readFrame (includeColors : Bool) (totalChars : Nat) : List Nat → ASCIIFrame × List Nat
  | [] => (.delta [], [])
  | t :: rest =>
      if t = 0 then readFullFrame includeColors totalChars rest
      else readDeltaBody includeColors rest

/-- The frame-reading loop of the runtime decoder: `frameCount` iterations
of `readFrame`. -/
def readFrames (includeColors : Bool) (totalChars : Nat) : Nat → List Nat → List ASCIIFrame
  | 0, _ => []
  | k + 1, l =>
      let fr := readFrame includeColors totalChars l
      fr.1 :: readFrames includeColors totalChars k fr.2

/-- Decidable equality of decode results (used to evaluate the decoder on
concrete streams). -/
instance : DecidableEq (Except String ASCIIAnimation)
  | .ok x, .ok y =>
      if h : x = y then .isTrue (congrArg Except.ok h)
      else .isFalse (fun hco => h (Except.ok.inj hco))
  | .ok _, .error _ => .isFalse (fun hco => Except.noConfusion hco)
  | .error _, .ok _ => .isFalse (fun hco => Except.noConfusion hco)
  | .error s, .error t =>
      if h : s = t then .isTrue (congrArg Except.error h)
      else .isFalse (fun hco => h (Except.error.inj hco))

/-- Function `decodeBinary` (runtime decoder, lines 54-143): validate the 4-byte
magic (`throw` on mismatch), read the header through a `DataView` — the
calls `view.getUint16(6, true)`, `getUint16(8, true)` and
`getUint16(11, true)` throw a `RangeError` when the buffer is shorter than
8, 10 and 13 bytes respectively, so with a valid magic the decoder throws
exactly when fewer than 13 bytes are present; that exception is modeled as
an `Except.error` with a descriptive message.  Otherwise
`getUint16(o, true)` is `bytes[o] + 256*bytes[o+1]`; the ramp slice is
clamped at the end of the stream, the offset advancing by the declared
`rampLen` regardless, and then `frameCount` frame records are parsed.
`meta.duration` is recomputed as `frameCount / fps`, and the decoded meta
carries no `palette`.  The source binds the header fields to locals
(`version`, `cols`, `rows`, ...); they are inlined here.  On a 13-byte
stream the source reads `rampLen = bytes[13] = undefined`, and the
resulting `NaN` offset makes every later indexed read `undefined`: the ramp
comes out empty and each of the `frameCount` frames parses as a delta with
change count 0 — exactly what the `getD _ 0` reads below produce, since
`bytes.drop 32` is then empty and an exhausted stream parses as `delta []`.
(When the `fps` byte is 0 the source's `frameCount / fps` is `Infinity` or
`NaN` while rational division yields 0; no theorem below concerns the
duration of a zero-`fps` stream.) -/
def decodeBinary (bytes : List Nat) : Except String ASCIIAnimation :=
  if bytes.getD 0 0 = 65 ∧ bytes.getD 1 0 = 83 ∧ bytes.getD 2 0 = 67 ∧ bytes.getD 3 0 = 73 then
  if bytes.length < 13 then
    Except.error "RangeError: Offset is outside the bounds of the DataView"
  else
    Except.ok
      { asciiMeta :=
          { version := bytes.getD 4 0
            cols := bytes.getD 6 0 + 256 * bytes.getD 7 0
            rows := bytes.getD 8 0 + 256 * bytes.getD 9 0
            fps := bytes.getD 10 0
            frameCount := bytes.getD 11 0 + 256 * bytes.getD 12 0
            duration := ((bytes.getD 11 0 + 256 * bytes.getD 12 0 : Nat) : ℚ) /
              ((bytes.getD 10 0 : Nat) : ℚ)
            colorMode := byteToColorMode (bytes.getD 5 0)
            ramp := (bytes.drop 32).take (bytes.getD 13 0)
            palette := none }
        frames := readFrames (byteToColorMode (bytes.getD 5 0)).includeColors
          ((bytes.getD 8 0 + 256 * bytes.getD 9 0) * (bytes.getD 6 0 + 256 * bytes.getD 7 0))
          (bytes.getD 11 0 + 256 * bytes.getD 12 0)
          (bytes.drop (32 + bytes.getD 13 0)) }
  else
    Except.error "Invalid ASCII animation file: bad magic number"

/-! ## List helper lemmas -/

/-- Pointwise description of `List.set`. -/
theorem get?_set' {α : Type} (l : List α) (i j : Nat) (a : α) :
    (l.set i a).get? j = if i = j ∧ j < l.length then some a else l.get? j := by
  induction l generalizing i j with
  | nil => simp
  | cons x xs ih =>
      cases i with
      | zero =>
          cases j with
          | zero => simp
          | succ j' => simp [Nat.succ_ne_zero]
      | succ i' =>
          cases j with
          | zero => simp
          | succ j' =>
              simp only [List.set, List.get?, List.length_cons]
              rw [ih i' j']
              by_cases h : i' = j' ∧ j' < xs.length
              · rw [if_pos h, if_pos (by omega)]
              · rw [if_neg h, if_neg (by omega)]

/-- A map that fixes every element of a list is the identity. -/
theorem map_id_of_mem {α : Type} {l : List α} {f : α → α} (h : ∀ x ∈ l, f x = x) :
    l.map f = l := by
  induction l with
  | nil => rfl
  | cons x xs ih => simp [h x (by simp), ih (fun y hy => h y (by simp [hy]))]

/-- Lemma: `find?` for the equality predicate returns the sought element exactly
when it occurs. -/
theorem find?_beq_eq {l : List Nat} {j : Nat} :
    l.find? (fun i => i == j) = if j ∈ l then some j else none := by
  induction l with
  | nil => simp
  | cons x xs ih =>
      by_cases hx : x = j
      · subst hx; simp [List.find?]
      · rw [List.find?_cons_of_neg _ (by simp [hx])]
        simp [ih, hx, Ne.symm hx]

/-! ## Delta application, pointwise -/

/-- The color-buffer update performed for one delta change
(`currentColors[change.index*3 + k] = change.colorK ?? 0`). -/
def setColor (c : DeltaChange) (cs : List Nat) : List Nat :=
  ((cs.set (c.index * 3) (c.colorR.getD 0)).set (c.index * 3 + 1)
      (c.colorG.getD 0)).set (c.index * 3 + 2) (c.colorB.getD 0)

/-- The color component a change writes at offset `k ∈ {0,1,2}` within its
cell's color triple. -/
def colorComp (c : DeltaChange) (k : Nat) : Nat :=
  if k = 0 then c.colorR.getD 0 else if k = 1 then c.colorG.getD 0 else c.colorB.getD 0

theorem applyChange_fst (ic : Bool) (st : List Nat × List Nat) (c : DeltaChange) :
    (applyChange ic st c).1 = st.1.set c.index c.char := rfl

theorem foldl_applyChange_fst (ic : Bool) (changes : List DeltaChange)
    (st : List Nat × List Nat) :
    (changes.foldl (applyChange ic) st).1 =
      changes.foldl (fun cs c => cs.set c.index c.char) st.1 := by
  induction changes generalizing st with
  | nil => rfl
  | cons c rest ih => simp only [List.foldl_cons, ih, applyChange]

theorem foldl_applyChange_snd_false (changes : List DeltaChange) (st : List Nat × List Nat) :
    (changes.foldl (applyChange false) st).2 = st.2 := by
  induction changes generalizing st with
  | nil => rfl
  | cons c rest ih => simp [List.foldl_cons, ih, applyChange]

theorem foldl_applyChange_snd_true (changes : List DeltaChange) (st : List Nat × List Nat) :
    (changes.foldl (applyChange true) st).2 =
      changes.foldl (fun cs c => setColor c cs) st.2 := by
  induction changes generalizing st with
  | nil => rfl
  | cons c rest ih => simp [List.foldl_cons, ih, applyChange, setColor]

/-- Pointwise description of `setColor`: position `j` is overwritten exactly
when it lies in the change's color triple, i.e. `j / 3 = c.index`. -/
theorem setColor_get? (c : DeltaChange) (cs : List Nat) (j : Nat) :
    (setColor c cs).get? j =
      if j / 3 = c.index ∧ j < cs.length then some (colorComp c (j % 3)) else cs.get? j := by
  unfold setColor
  rw [get?_set', get?_set', get?_set']
  simp only [List.length_set]
  have h3 : j % 3 = 0 ∨ j % 3 = 1 ∨ j % 3 = 2 := by omega
  by_cases h : j / 3 = c.index ∧ j < cs.length
  · rcases h3 with h0 | h1 | h2
    · rw [if_neg (by omega), if_neg (by omega), if_pos (by constructor <;> omega),
        if_pos h]
      simp [colorComp, h0]
    · rw [if_neg (by omega), if_pos (by constructor <;> omega)]
      rw [if_pos h]
      simp [colorComp, h1]
    · rw [if_pos (by constructor <;> omega)]
      rw [if_pos h]
      simp [colorComp, h2]
  · rw [if_neg (by omega), if_neg (by omega), if_neg (by omega), if_neg h]

/-- Workhorse: a left fold of pointwise index-keyed updates over a list of
changes with pairwise-distinct indices is described pointwise by the first
(unique) change hitting the position. -/
theorem foldl_update_get? (keyOf : Nat → Nat) (val : DeltaChange → Nat → Nat)
    (u : DeltaChange → List Nat → List Nat)
    (hu : ∀ c cs j, (u c cs).get? j =
      if keyOf j = c.index ∧ j < cs.length then some (val c j) else cs.get? j)
    (hlen : ∀ c cs, (u c cs).length = cs.length)
    (changes : List DeltaChange) (hnd : changes.Pairwise (fun a b => a.index ≠ b.index))
    (l : List Nat) (j : Nat) :
    (changes.foldl (fun cs c => u c cs) l).get? j =
      match changes.find? (fun c => c.index == keyOf j) with
      | some c => if j < l.length then some (val c j) else none
      | none => l.get? j := by
  induction changes generalizing l with
  | nil => rfl
  | cons c rest ih =>
      have hc : ∀ b ∈ rest, c.index ≠ b.index := (List.pairwise_cons.mp hnd).1
      have hrest := (List.pairwise_cons.mp hnd).2
      simp only [List.foldl_cons]
      rw [ih hrest]
      by_cases hkey : c.index = keyOf j
      · have hfind : (c :: rest).find? (fun b => b.index == keyOf j) = some c := by
          simp [List.find?, hkey]
        have hnone : rest.find? (fun b => b.index == keyOf j) = none := by
          rw [List.find?_eq_none]
          intro b hb
          simp only [beq_iff_eq]
          exact fun hbk => hc b hb (hkey.trans hbk.symm)
        rw [hfind, hnone]
        show (u c l).get? j = if j < l.length then some (val c j) else none
        rw [hu]
        by_cases hj : j < l.length
        · rw [if_pos ⟨hkey.symm, hj⟩, if_pos hj]
        · rw [if_neg (fun hh => hj hh.2), if_neg hj]
          exact List.get?_eq_none.mpr (le_of_not_lt hj)
      · have hfind : (c :: rest).find? (fun b => b.index == keyOf j) =
            rest.find? (fun b => b.index == keyOf j) :=
          List.find?_cons_of_neg _ (by simp [hkey])
        rw [hfind]
        cases hrf : rest.find? (fun b => b.index == keyOf j) with
        | some b =>
            show (if j < (u c l).length then some (val b j) else none) =
              if j < l.length then some (val b j) else none
            rw [hlen]
        | none =>
            show (u c l).get? j = l.get? j
            rw [hu, if_neg (fun hh => hkey hh.1.symm)]

/-! ## Properties of the change list -/

theorem mkChange_index (curr : ConvertedFrame) (ic : Bool) (i : Nat) :
    (mkChange curr ic i).index = i := rfl

theorem changeList_pairwise (prev curr : ConvertedFrame) (ic : Bool) :
    (changeList prev curr ic).Pairwise (fun a b => a.index ≠ b.index) := by
  unfold changeList
  rw [List.pairwise_map]
  have h1 : ((List.range curr.chars.length).filter (changedCell prev curr ic)).Pairwise
      (· < ·) :=
    List.Pairwise.sublist (List.filter_sublist _) (List.pairwise_lt_range _)
  exact h1.imp (fun hlt => by simp [mkChange_index, Nat.ne_of_lt hlt])

theorem changeList_find? (prev curr : ConvertedFrame) (ic : Bool) (j : Nat) :
    (changeList prev curr ic).find? (fun c => c.index == j) =
      if j < curr.chars.length ∧ changedCell prev curr ic j then
        some (mkChange curr ic j)
      else none := by
  unfold changeList
  rw [List.find?_map]
  have hpred : ((fun c => c.index == j) ∘ mkChange curr ic) = (fun i => i == j) := by
    funext i
    simp [mkChange_index, Function.comp]
  rw [hpred, find?_beq_eq]
  by_cases hj : j ∈ (List.range curr.chars.length).filter (changedCell prev curr ic)
  · rw [if_pos hj]
    have := List.mem_filter.mp hj
    rw [if_pos ⟨List.mem_range.mp this.1, this.2⟩]
    rfl
  · rw [if_neg hj, if_neg (fun hh => hj (List.mem_filter.mpr ⟨List.mem_range.mpr hh.1, hh.2⟩))]
    rfl

/-- An unchanged cell has equal symbols (and, with colors on, equal color
components). -/
theorem changedCell_eq_false_iff (prev curr : ConvertedFrame) (ic : Bool) (i : Nat) :
    changedCell prev curr ic i = false ↔
      curr.chars.get? i = prev.chars.get? i ∧
      (ic = true →
        (curr.colors.get? (i * 3) = prev.colors.get? (i * 3) ∧
         curr.colors.get? (i * 3 + 1) = prev.colors.get? (i * 3 + 1) ∧
         curr.colors.get? (i * 3 + 2) = prev.colors.get? (i * 3 + 2))) := by
  cases ic <;> simp [changedCell] <;> tauto

theorem get?_eq_some_getD {l : List Nat} {j : Nat} (h : j < l.length) :
    l.get? j = some (l.getD j 0) := by
  rw [List.getD_eq_getElem?_getD, List.get?_eq_getElem?]
  cases hg : l[j]? with
  | some v => rfl
  | none => exact absurd (List.getElem?_eq_none_iff.mp hg) (by omega)

/-! ## Delta correctness: applying `computeDelta`'s output -/

/-- Symbol part of the delta round trip: folding the change list's symbol
writes over the previous symbol buffer yields the current one. -/
theorem foldl_changeList_chars (prev curr : ConvertedFrame) (ic : Bool)
    (hchars : prev.chars.length = curr.chars.length) :
    (changeList prev curr ic).foldl (fun cs c => cs.set c.index c.char) prev.chars =
      curr.chars := by
  apply List.ext
  intro j
  rw [foldl_update_get? (fun j => j) (fun c _ => c.char) (fun c cs => cs.set c.index c.char)
    (fun c cs j => by
      rw [get?_set']
      exact if_congr (by constructor <;> (intro hh; exact ⟨hh.1.symm, hh.2⟩)) rfl rfl)
    (fun c cs => List.length_set cs c.index c.char)
    _ (changeList_pairwise prev curr ic) prev.chars j]
  rw [changeList_find?]
  by_cases hj : j < curr.chars.length ∧ changedCell prev curr ic j
  · rw [if_pos hj]
    show (if j < prev.chars.length then some (mkChange curr ic j).char else none) =
      curr.chars.get? j
    rw [if_pos (hchars ▸ hj.1)]
    exact (get?_eq_some_getD hj.1).symm
  · rw [if_neg hj]
    show prev.chars.get? j = curr.chars.get? j
    by_cases hjl : j < curr.chars.length
    · have hcc : changedCell prev curr ic j = false := by
        cases hcf : changedCell prev curr ic j
        · rfl
        · exact absurd ⟨hjl, hcf⟩ hj
      exact ((changedCell_eq_false_iff prev curr ic j).mp hcc).1.symm
    · rw [List.get?_eq_none.mpr (by omega), List.get?_eq_none.mpr (by omega)]

/-- Color part of the delta round trip: folding the change list's color
writes over the previous color buffer yields the current one. -/
theorem foldl_changeList_colors (prev curr : ConvertedFrame)
    (hpcol : prev.colors.length = curr.chars.length * 3)
    (hccol : curr.colors.length = curr.chars.length * 3) :
    (changeList prev curr true).foldl (fun cs c => setColor c cs) prev.colors =
      curr.colors := by
  apply List.ext
  intro j
  rw [foldl_update_get? (fun j => j / 3) (fun c j => colorComp c (j % 3)) setColor
    (fun c cs j => setColor_get? c cs j)
    (fun c cs => by simp [setColor])
    _ (changeList_pairwise prev curr true) prev.colors j]
  rw [changeList_find?]
  by_cases hj : j / 3 < curr.chars.length ∧ changedCell prev curr true (j / 3)
  · rw [if_pos hj]
    show (if j < prev.colors.length then
        some (colorComp (mkChange curr true (j / 3)) (j % 3)) else none) =
      curr.colors.get? j
    have hjlt : j < curr.chars.length * 3 := by omega
    rw [if_pos (by rw [hpcol]; omega)]
    have hcomp : colorComp (mkChange curr true (j / 3)) (j % 3) = curr.colors.getD j 0 := by
      have h3 : j % 3 = 0 ∨ j % 3 = 1 ∨ j % 3 = 2 := by omega
      rcases h3 with h | h | h
      · rw [h]
        show (curr.colors.get? (j / 3 * 3)).getD 0 = curr.colors.getD j 0
        rw [show j / 3 * 3 = j by omega, get?_eq_some_getD (by rw [hccol]; omega)]
        rfl
      · rw [h]
        show (curr.colors.get? (j / 3 * 3 + 1)).getD 0 = curr.colors.getD j 0
        rw [show j / 3 * 3 + 1 = j by omega, get?_eq_some_getD (by rw [hccol]; omega)]
        rfl
      · rw [h]
        show (curr.colors.get? (j / 3 * 3 + 2)).getD 0 = curr.colors.getD j 0
        rw [show j / 3 * 3 + 2 = j by omega, get?_eq_some_getD (by rw [hccol]; omega)]
        rfl
    rw [hcomp]
    exact (get?_eq_some_getD (by rw [hccol]; omega)).symm
  · rw [if_neg hj]
    show prev.colors.get? j = curr.colors.get? j
    by_cases hjl : j / 3 < curr.chars.length
    · have hcc : changedCell prev curr true (j / 3) = false := by
        cases hcf : changedCell prev curr true (j / 3)
        · rfl
        · exact absurd ⟨hjl, hcf⟩ hj
      have heqs := ((changedCell_eq_false_iff prev curr true (j / 3)).mp hcc).2 rfl
      have h3 : j % 3 = 0 ∨ j % 3 = 1 ∨ j % 3 = 2 := by omega
      rcases h3 with h | h | h
      · rw [show j = j / 3 * 3 by omega]
        exact heqs.1.symm
      · rw [show j = j / 3 * 3 + 1 by omega]
        exact heqs.2.1.symm
      · rw [show j = j / 3 * 3 + 2 by omega]
        exact heqs.2.2.symm
    · rw [List.get?_eq_none.mpr (by rw [hpcol]; omega),
        List.get?_eq_none.mpr (by rw [hccol]; omega)]

/-- Core round-trip lemma: applying the frame produced by `computeDelta` to
the previous buffers reproduces the current grids.  `cs0` is the player's
running color buffer, which in color mode must hold the previous frame's
colors; in mono mode it is untouched. -/
theorem applyFrame_computeDelta (prev curr : ConvertedFrame) (ic : Bool) (cs0 : List Nat)
    (hchars : prev.chars.length = curr.chars.length)
    (hsnd : ic = true → cs0 = prev.colors)
    (hpcol : ic = true → prev.colors.length = curr.chars.length * 3)
    (hccol : ic = true → curr.colors.length = curr.chars.length * 3) :
    applyFrame ic (prev.chars, cs0) (computeDelta prev curr ic) =
      (curr.chars, if ic then curr.colors else cs0) := by
  unfold computeDelta
  by_cases hth : ((changeList prev curr ic).length : ℚ) >
      (curr.chars.length : ℚ) * DELTA_THRESHOLD
  · rw [if_pos hth]
    cases ic <;> simp [applyFrame]
  · rw [if_neg hth]
    show (changeList prev curr ic).foldl (applyChange ic) (prev.chars, cs0) = _
    have hfst : ((changeList prev curr ic).foldl (applyChange ic) (prev.chars, cs0)).1 =
        curr.chars := by
      rw [foldl_applyChange_fst]
      exact foldl_changeList_chars prev curr ic hchars
    cases ic with
    | false =>
        have h2 : ((changeList prev curr false).foldl (applyChange false)
            (prev.chars, cs0)).2 = cs0 := foldl_applyChange_snd_false _ _
        exact Prod.ext hfst h2
    | true =>
        have h2 : ((changeList prev curr true).foldl (applyChange true)
            (prev.chars, cs0)).2 = curr.colors := by
          rw [foldl_applyChange_snd_true]
          show (changeList prev curr true).foldl (fun cs c => setColor c cs) cs0 = _
          rw [hsnd rfl]
          exact foldl_changeList_colors prev curr (hpcol rfl) (hccol rfl)
        exact Prod.ext hfst h2

/-- Resolving the delta chain: starting from a state holding the previous
grid, applying `computeDelta`-encoded frames reproduces each grid in turn. -/
theorem runFrames_deltaChain (ic : Bool) (n : Nat) (gs : List ConvertedFrame) :
    ∀ (prev : ConvertedFrame) (cs0 : List Nat),
      prev.chars.length = n → prev.colors.length = n * 3 →
      (ic = true → cs0 = prev.colors) →
      (ic = false → cs0 = List.replicate (n * 3) 0) →
      (∀ g ∈ gs, g.chars.length = n ∧ g.colors.length = n * 3) →
      runFrames ic (prev.chars, cs0) (deltaChain ic prev gs) =
        gs.map (fun g => (g.chars, if ic then g.colors else List.replicate (n * 3) 0)) := by
  induction gs with
  | nil => intro prev cs0 _ _ _ _ _; rfl
  | cons g rest ih =>
      intro prev cs0 hpc hpcol hsnd hmono hdims
      have hg := hdims g (by simp)
      show (applyFrame ic (prev.chars, cs0) (computeDelta prev g ic)) ::
          runFrames ic (applyFrame ic (prev.chars, cs0) (computeDelta prev g ic))
            (deltaChain ic g rest) = _
      rw [applyFrame_computeDelta prev g ic cs0 (by rw [hpc, hg.1]) hsnd
        (fun hic => by rw [hpcol, hg.1]) (fun hic => by rw [hg.2, hg.1])]
      cases ic with
      | false =>
          have hstate : (if false = true then g.colors else cs0) = cs0 := rfl
          rw [hstate, hmono rfl]
          rw [ih g (List.replicate (n * 3) 0) hg.1 hg.2 (by simp) (fun _ => rfl)
            (fun g' hg' => hdims g' (by simp [hg']))]
          rfl
      | true =>
          have hstate : (if true = true then g.colors else cs0) = g.colors := rfl
          rw [hstate]
          rw [ih g g.colors hg.1 hg.2 (fun _ => rfl) (by simp)
            (fun g' hg' => hdims g' (by simp [hg']))]
          rfl

/-- Claim C1.  Delta correctness of the frame codec: applying the
`FrameRecord` produced by `computeDelta` (`makeFrame`) for a pair of
equal-length grids to the previous grid's buffers reproduces the current
grid exactly, in symbols and — when colors are included — in colors; and
resolving the encode pipeline's frame sequence from the player's
initially-unset buffers reproduces every original grid. -/
theorem computeDelta_roundtrip
    (prev curr : ConvertedFrame) (ic : Bool) (grids : List ConvertedFrame) (n : Nat)
    (hchars : prev.chars.length = curr.chars.length)
    (hpcol : ic = true → prev.colors.length = curr.chars.length * 3)
    (hccol : ic = true → curr.colors.length = curr.chars.length * 3)
    (hdims : ∀ g ∈ grids, g.chars.length = n ∧ g.colors.length = n * 3) :
    applyFrame ic (prev.chars, prev.colors) (computeDelta prev curr ic) =
      (curr.chars, if ic then curr.colors else prev.colors) ∧
    preDecodeFrames ic n (encodeFrames ic grids) =
      grids.map (fun g => (g.chars, if ic then g.colors else List.replicate (n * 3) 0)) := by
  constructor
  · exact applyFrame_computeDelta prev curr ic prev.colors hchars (fun _ => rfl) hpcol hccol
  · cases grids with
    | nil => rfl
    | cons g rest =>
        have hg := hdims g (by simp)
        show runFrames ic ([], List.replicate (n * 3) 0)
            (createFullFrame g ic :: deltaChain ic g rest) = _
        have happ : applyFrame ic ([], List.replicate (n * 3) 0) (createFullFrame g ic) =
            (g.chars, if ic then g.colors else List.replicate (n * 3) 0) := by
          cases ic <;> simp [createFullFrame, applyFrame]
        show (applyFrame ic ([], List.replicate (n * 3) 0) (createFullFrame g ic)) ::
            runFrames ic (applyFrame ic ([], List.replicate (n * 3) 0) (createFullFrame g ic))
              (deltaChain ic g rest) = _
        rw [happ]
        cases ic with
        | false =>
            have hstate : (if false = true then g.colors else List.replicate (n * 3) 0) =
                List.replicate (n * 3) 0 := rfl
            rw [hstate, runFrames_deltaChain false n rest g (List.replicate (n * 3) 0) hg.1
              hg.2 (by simp) (fun _ => rfl) (fun g' hg' => hdims g' (by simp [hg']))]
            rfl
        | true =>
            have hstate : (if true = true then g.colors else List.replicate (n * 3) 0) =
                g.colors := rfl
            rw [hstate, runFrames_deltaChain true n rest g g.colors hg.1 hg.2 (fun _ => rfl)
              (by simp) (fun g' hg' => hdims g' (by simp [hg']))]
            rfl

/-- Witness for C1 at a concrete pair of 1×2 color grids and a concrete
two-frame sequence. -/
theorem computeDelta_roundtrip_witness :
    applyFrame true ([65, 66], [1, 2, 3, 4, 5, 6])
        (computeDelta ⟨[65, 66], [1, 2, 3, 4, 5, 6], 1, 2⟩
          ⟨[65, 67], [1, 2, 3, 9, 9, 9], 1, 2⟩ true) =
      ([65, 67], [1, 2, 3, 9, 9, 9]) ∧
    preDecodeFrames true 2
        (encodeFrames true [⟨[65, 66], [1, 2, 3, 4, 5, 6], 1, 2⟩,
          ⟨[65, 67], [1, 2, 3, 9, 9, 9], 1, 2⟩]) =
      [([65, 66], [1, 2, 3, 4, 5, 6]), ([65, 67], [1, 2, 3, 9, 9, 9])] := by
  have h := computeDelta_roundtrip ⟨[65, 66], [1, 2, 3, 4, 5, 6], 1, 2⟩
    ⟨[65, 67], [1, 2, 3, 9, 9, 9], 1, 2⟩ true
    [⟨[65, 66], [1, 2, 3, 4, 5, 6], 1, 2⟩, ⟨[65, 67], [1, 2, 3, 9, 9, 9], 1, 2⟩] 2
    (by decide) (fun _ => by decide) (fun _ => by decide) (by decide)
  exact ⟨h.1, h.2⟩

/-! ## Threshold policy -/

/-- Claim C3.  Whenever the number of changed cells exceeds
`DELTA_THRESHOLD = 0.4` times the total cell count, `computeDelta` returns a
full frame — and never a delta frame — regardless of which cells changed. -/
theorem computeDelta_threshold (prev curr : ConvertedFrame) (ic : Bool)
    (h : ((((List.range curr.chars.length).filter (changedCell prev curr ic)).length : ℚ)) >
      (curr.chars.length : ℚ) * DELTA_THRESHOLD) :
    computeDelta prev curr ic = .full curr.chars (if ic then some curr.colors else none) ∧
    ∀ changes, computeDelta prev curr ic ≠ .delta changes := by
  have hlen : (changeList prev curr ic).length =
      ((List.range curr.chars.length).filter (changedCell prev curr ic)).length :=
    List.length_map _ _
  have hfull : computeDelta prev curr ic =
      .full curr.chars (if ic then some curr.colors else none) := by
    unfold computeDelta
    rw [if_pos (by rw [hlen]; exact h)]
  exact ⟨hfull, fun changes hcon => by rw [hfull] at hcon; exact ASCIIFrame.noConfusion hcon⟩

/-- Witness for C3: a 1×2 grid with both cells changed (100% > 40%). -/
theorem computeDelta_threshold_witness :
    computeDelta ⟨[65, 66], [], 1, 2⟩ ⟨[67, 68], [], 1, 2⟩ false =
      .full [67, 68] none := by
  have h := computeDelta_threshold ⟨[65, 66], [], 1, 2⟩ ⟨[67, 68], [], 1, 2⟩ false
    (by decide)
  exact h.1

/-! ## Luminance lookup table -/

theorem getD_map_range (f : Nat → Nat) (m i : Nat) (h : i < m) :
    ((List.range m).map f).getD i 0 = f i := by
  rw [List.getD_eq_getElem?_getD, List.getElem?_map, List.getElem?_range h]
  rfl

theorem buildLumLUT_getD (L : Nat) (inv : Bool) (lum : Nat) (h : lum < 256) :
    (buildLumLUT L inv).getD lum 0 = lutIndex L (if inv then 255 - lum else lum) :=
  getD_map_range _ 256 lum h

theorem lutIndex_mono (L : Nat) {a b : Nat} (h : a ≤ b) : lutIndex L a ≤ lutIndex L b :=
  min_le_min (Nat.div_le_div_right (Nat.mul_le_mul_right L h)) (le_refl _)

/-- Claim C7.  For a ramp length `L ∈ [1, 255]`, every entry of the 256-entry
luminance lookup table equals
`min(floor((invert ? 255-lum : lum) * L / 256), L-1)`; the table is
non-decreasing in the luminance when `invert` is off and non-increasing when
it is on. -/
theorem buildLumLUT_spec (L : Nat) (inv : Bool) (hL1 : 1 ≤ L) (hL2 : L ≤ 255) :
    (∀ lum, lum ≤ 255 →
      (buildLumLUT L inv).getD lum 0 =
        min (((if inv then 255 - lum else lum) * L) / 256) (L - 1)) ∧
    (inv = false → ∀ l1 l2, l1 ≤ l2 → l2 ≤ 255 →
      (buildLumLUT L inv).getD l1 0 ≤ (buildLumLUT L inv).getD l2 0) ∧
    (inv = true → ∀ l1 l2, l1 ≤ l2 → l2 ≤ 255 →
      (buildLumLUT L inv).getD l2 0 ≤ (buildLumLUT L inv).getD l1 0) := by
  refine ⟨fun lum hlum => buildLumLUT_getD L inv lum (by omega), ?_, ?_⟩
  · intro hinv l1 l2 h12 h2
    subst hinv
    rw [buildLumLUT_getD L false l1 (by omega), buildLumLUT_getD L false l2 (by omega)]
    show lutIndex L l1 ≤ lutIndex L l2
    exact lutIndex_mono L h12
  · intro hinv l1 l2 h12 h2
    subst hinv
    rw [buildLumLUT_getD L true l1 (by omega), buildLumLUT_getD L true l2 (by omega)]
    show lutIndex L (255 - l2) ≤ lutIndex L (255 - l1)
    exact lutIndex_mono L (by omega)

/-- Witness for C7 at `L = 7` (the default ramp length): the mid-gray entry
and a monotonicity instance. -/
theorem buildLumLUT_spec_witness :
    (buildLumLUT 7 false).getD 128 0 = min ((128 * 7) / 256) 6 ∧
    (buildLumLUT 7 false).getD 100 0 ≤ (buildLumLUT 7 false).getD 200 0 := by
  have h := buildLumLUT_spec 7 false (by decide) (by decide)
  exact ⟨h.1 128 (by decide), h.2.1 rfl 100 200 (by decide) (by decide)⟩

/-! ## Safety of the conversion lookups -/

/-- Claim C9.  The fixed-point luminance of byte-valued channels stays in
`[0, 255]` (the scaled Rec. 709 coefficients sum to 256), and every
luminance lookup-table entry is below the ramp length, so each symbol lookup
`rampCodes[charIndex]` / `ramp[charIndex]` during conversion is in bounds. -/
theorem conversion_lookup_safe (r g b L : Nat) (inv : Bool)
    (hr : r ≤ 255) (hg : g ≤ 255) (hb : b ≤ 255) (hL : 1 ≤ L) :
    lumOf r g b ≤ 255 ∧
    (∀ lum, (buildLumLUT L inv).getD lum 0 < L) ∧
    lutIndex L (lumOf r g b) < L := by
  have hlut : ∀ lum, (buildLumLUT L inv).getD lum 0 < L := by
    intro lum
    by_cases hl : lum < 256
    · rw [buildLumLUT_getD L inv lum hl]
      have := min_le_right (((if inv then 255 - lum else lum) * L) / 256) (L - 1)
      unfold lutIndex
      omega
    · rw [List.getD_eq_default _ _ (by simp [buildLumLUT]; omega)]
      omega
  refine ⟨?_, hlut, ?_⟩
  · have hsum : LUMA_R * r + LUMA_G * g + LUMA_B * b ≤ 256 * 255 := by
      unfold LUMA_R LUMA_G LUMA_B
      omega
    have := Nat.div_le_div_right (c := 256) hsum
    unfold lumOf
    omega
  · have := min_le_right ((lumOf r g b * L) / 256) (L - 1)
    unfold lutIndex
    omega

/-- Witness for C9 at pure white and the default 7-symbol ramp. -/
theorem conversion_lookup_safe_witness :
    lumOf 255 255 255 ≤ 255 ∧
    (∀ lum, (buildLumLUT 7 false).getD lum 0 < 7) ∧
    lutIndex 7 (lumOf 255 255 255) < 7 :=
  conversion_lookup_safe 255 255 255 7 false (by decide) (by decide) (by decide) (by decide)

/-! ## Renderer option clamping -/

/-- Claim C10.  Setting only `cols` stores `max(20, min(200, c))`, so the
stored value — and the `cols` of every subsequently computed sampling grid —
lies in `[20, 200]`; the ramp, color mode and invert flag are unchanged. -/
theorem setOptions_cols_clamp (st : RendererState) (c : ℚ) :
    (setOptions st { cols := some c }).cols = max 20 (min 200 c) ∧
    20 ≤ (setOptions st { cols := some c }).cols ∧
    (setOptions st { cols := some c }).cols ≤ 200 ∧
    (∀ w h, (calculateSamplingGrid w h (setOptions st { cols := some c }).cols).cols =
        (setOptions st { cols := some c }).cols) ∧
    (setOptions st { cols := some c }).ramp = st.ramp ∧
    (setOptions st { cols := some c }).colorMode = st.colorMode ∧
    (setOptions st { cols := some c }).invert = st.invert := by
  refine ⟨rfl, ?_, ?_, fun w h => rfl, rfl, rfl, rfl⟩
  · exact le_max_left 20 (min 200 c)
  · exact max_le (by norm_num) (min_le_left 200 c)

/-! ## Error behavior of the converter, writer and decoder -/

/-- Counterexample to C6: on a degenerate raster (height 0) the converter
returns a grid — an empty frame with `rows = 0` — rather than failing; no
`InvalidDimensions` error exists in the source. -/
theorem convertToASCII_degenerate_cex :
    convertToASCII ⟨[], 4, 0⟩ 2 (ASCII_RAMPS .minimal) =
      { chars := [], colors := [], rows := 0, cols := 2 } := by
  decide

/-- C6 as amended: `convertToASCII` performs no dimension validation; for a
degenerate raster (height 0) it returns the empty grid with `rows = 0`
instead of failing. -/
theorem convertToASCII_degenerate_height (img : RasterImage) (cols : Nat) (ramp : List Nat)
    (hw : 1 ≤ img.width) (hc : 1 ≤ cols) (hh : img.height = 0) :
    convertToASCII img cols ramp = { chars := [], colors := [], rows := 0, cols := cols } := by
  simp [convertToASCII, hh]

/-- Witness for the amended C6 at a concrete degenerate raster. -/
theorem convertToASCII_degenerate_height_witness :
    convertToASCII ⟨[], 4, 0⟩ 2 (ASCII_RAMPS .minimal) =
      { chars := [], colors := [], rows := 0, cols := 2 } :=
  convertToASCII_degenerate_height ⟨[], 4, 0⟩ 2 (ASCII_RAMPS .minimal)
    (by decide) (by decide) (by decide)

set_option maxRecDepth 8000 in
/-- Counterexample to C5: for a 256-symbol ramp, `writeBinary` produces a
byte stream (header plus the 256 ramp bytes) whose ramp-length header byte
has wrapped to `256 % 256 = 0`; it does not fail, and no
`UnsupportedRampLength` error exists in the source. -/
theorem writeBinary_bigRamp_cex :
    (writeBinary ⟨⟨1, 1, 1, 24, 0, 0, .mono, List.replicate 256 65, none⟩, []⟩).length = 288 ∧
    (writeBinary ⟨⟨1, 1, 1, 24, 0, 0, .mono, List.replicate 256 65, none⟩, []⟩).getD 13 0 =
      0 := by
  decide

set_option maxRecDepth 4000 in
/-- C5 as amended: `writeBinary` never fails; the ramp-length header byte at
offset 13 stores `ramp.length % 256` (a `Uint8Array` store wraps), so ramps
longer than 255 symbols are written with a wrapped length byte. -/
theorem writeBinary_rampLength_byte (a : ASCIIAnimation) :
    (writeBinary a).getD 13 0 = a.asciiMeta.ramp.length % 256 := rfl

/-- Counterexample to C4: a stream declaring `rampLength = 10` with only 5
ramp bytes present decodes successfully (`Except.ok`) to an animation whose
ramp holds the 5 available bytes; the decoder raises no `TruncatedStream`
error. -/
theorem decodeBinary_truncated_cex :
    (decodeBinary ([65, 83, 67, 73, 1, 0, 2, 0, 2, 0, 24, 0, 0, 10] ++
        List.replicate 18 0 ++ [32, 46, 58, 43, 42])).toOption.map
        (fun a => (a.asciiMeta.ramp, a.asciiMeta.frameCount)) =
      some ([32, 46, 58, 43, 42], 0) := by
  decide

/-- C4 as amended: the binary decoder performs no truncation checking on
the declared contents — it succeeds on every byte stream with a valid
`"ASCI"` magic and at least the 13 bytes the header's `DataView` reads
require (out-of-range reads past that point are clamped or read as
zero-filled), and it fails exactly on a bad magic or on a stream shorter
than 13 bytes, where `getUint16` throws a `RangeError`.  No
`TruncatedStream` error exists in the source. -/
theorem decodeBinary_ok_iff (bytes : List Nat) :
    (∃ a, decodeBinary bytes = Except.ok a) ↔
      ((bytes.getD 0 0 = 65 ∧ bytes.getD 1 0 = 83 ∧ bytes.getD 2 0 = 67 ∧
        bytes.getD 3 0 = 73) ∧ 13 ≤ bytes.length) := by
  unfold decodeBinary
  by_cases h : bytes.getD 0 0 = 65 ∧ bytes.getD 1 0 = 83 ∧ bytes.getD 2 0 = 67 ∧
      bytes.getD 3 0 = 73
  · rw [if_pos h]
    by_cases hl : bytes.length < 13
    · rw [if_pos hl]
      constructor
      · rintro ⟨a, ha⟩
        exact Except.noConfusion ha
      · rintro ⟨-, hge⟩
        omega
    · rw [if_neg hl]
      exact ⟨fun _ => ⟨h, by omega⟩, fun _ => ⟨_, rfl⟩⟩
  · rw [if_neg h]
    constructor
    · rintro ⟨a, ha⟩
      exact Except.noConfusion ha
    · rintro ⟨hh, -⟩
      exact absurd hh h

/-! ## Conversion of a uniform mid-gray raster -/

theorem sampleCoords_length_pos {base stop step : Nat} (h : base < stop) (hs : 1 ≤ step) :
    0 < (sampleCoords base stop step).length := by
  unfold sampleCoords
  rw [List.length_map, List.length_range]
  have := (Nat.one_le_div_iff (by omega : 0 < step)).mpr
    (by omega : step ≤ stop - base + step - 1)
  omega

theorem mem_sampleCoords {base stop step v : Nat} (hs : 1 ≤ step)
    (hv : v ∈ sampleCoords base stop step) : base ≤ v ∧ v < stop := by
  rw [sampleCoords, List.mem_map] at hv
  obtain ⟨k, hk, hkv⟩ := hv
  rw [List.mem_range] at hk
  subst hkv
  refine ⟨by omega, ?_⟩
  have h1 : ((stop - base + step - 1) / step) * step ≤ stop - base + step - 1 :=
    Nat.div_mul_le_self _ _
  have h2 : (k + 1) * step ≤ ((stop - base + step - 1) / step) * step :=
    Nat.mul_le_mul_right step (by omega)
  have h3 : (k + 1) * step = k * step + step := by ring
  omega

theorem sum_map_const {α : Type} (l : List α) (c : Nat) :
    (l.map (fun _ => c)).sum = c * l.length := by
  induction l with
  | nil => simp
  | cons x xs ih =>
      simp only [List.map_cons, List.sum_cons, ih, List.length_cons]
      ring

theorem getD_replicate_of_lt {n i c : Nat} (h : i < n) :
    (List.replicate n c).getD i 0 = c := by
  rw [List.getD_eq_getElem?_getD, List.getElem?_replicate_of_lt h]
  rfl

/-- Over a uniformly mid-gray raster, each sampled channel sums to
`128 * sampleCount`. -/
theorem channelSum_const (img : RasterImage)
    (hdata : img.data = List.replicate (img.width * img.height * 4) 128)
    (xs ys : List Nat) (ch : Nat) (hch : ch < 4)
    (hxs : ∀ x ∈ xs, x < img.width) (hys : ∀ y ∈ ys, y < img.height) :
    channelSum img xs ys ch = 128 * (ys.length * xs.length) := by
  unfold channelSum
  have hinner : ∀ y ∈ ys,
      (xs.map (fun x => img.data.getD ((y * img.width + x) * 4 + ch) 0)).sum =
        128 * xs.length := by
    intro y hy
    have hmap : xs.map (fun x => img.data.getD ((y * img.width + x) * 4 + ch) 0) =
        xs.map (fun _ => 128) := by
      apply List.map_congr_left
      intro x hx
      rw [hdata]
      apply getD_replicate_of_lt
      have hyw : (y + 1) * img.width ≤ img.height * img.width :=
        Nat.mul_le_mul_right img.width (hys y hy)
      have hxw : x < img.width := hxs x hx
      have he1 : (y + 1) * img.width = y * img.width + img.width := by ring
      have he2 : img.width * img.height = img.height * img.width := Nat.mul_comm _ _
      omega
    rw [hmap, sum_map_const]
  rw [List.map_congr_left hinner, sum_map_const]
  ring

/-- Averaging a uniformly mid-gray, nonempty, in-bounds cell yields
`(128, 128, 128)`. -/
theorem cellAvg_const (img : RasterImage)
    (hdata : img.data = List.replicate (img.width * img.height * 4) 128)
    (baseX endX baseY endY : Nat) (hx : baseX < endX) (hxw : endX ≤ img.width)
    (hy : baseY < endY) (hyh : endY ≤ img.height) :
    cellAvg img baseX endX baseY endY = (128, 128, 128) := by
  have hs : 1 ≤ cellStep baseX endX baseY endY := le_max_left _ _
  have hxs : ∀ x ∈ sampleCoords baseX endX (cellStep baseX endX baseY endY),
      x < img.width := fun x hxm => lt_of_lt_of_le (mem_sampleCoords hs hxm).2 hxw
  have hys : ∀ y ∈ sampleCoords baseY endY (cellStep baseX endX baseY endY),
      y < img.height := fun y hym => lt_of_lt_of_le (mem_sampleCoords hs hym).2 hyh
  have hny : 0 < (sampleCoords baseY endY (cellStep baseX endX baseY endY)).length :=
    sampleCoords_length_pos hy hs
  have hnx : 0 < (sampleCoords baseX endX (cellStep baseX endX baseY endY)).length :=
    sampleCoords_length_pos hx hs
  have hpos : 0 < (sampleCoords baseY endY (cellStep baseX endX baseY endY)).length *
      (sampleCoords baseX endX (cellStep baseX endX baseY endY)).length :=
    Nat.mul_pos hny hnx
  have hsc : sampleCount baseX endX baseY endY =
      (sampleCoords baseY endY (cellStep baseX endX baseY endY)).length *
        (sampleCoords baseX endX (cellStep baseX endX baseY endY)).length := by
    unfold sampleCount
    rw [if_neg (by omega)]
  unfold cellAvg
  rw [channelSum_const img hdata _ _ 0 (by omega) hxs hys,
    channelSum_const img hdata _ _ 1 (by omega) hxs hys,
    channelSum_const img hdata _ _ 2 (by omega) hxs hys, hsc,
    Nat.mul_div_cancel 128 hpos]

/-- Geometry of one cell dimension: with cell extent `d ≥ 1` and
`(k+1) * d` within the raster, the floored pixel rectangle is nonempty and
in bounds. -/
theorem cell_rect (total : Nat) (d : ℚ) (k : Nat) (hd : 1 ≤ d)
    (hk : ((k : ℚ) + 1) * d ≤ (total : ℚ)) :
    Nat.floor ((k : ℚ) * d) <
      min (Nat.floor (((Nat.floor ((k : ℚ) * d) : Nat) : ℚ) + d)) total ∧
    min (Nat.floor (((Nat.floor ((k : ℚ) * d) : Nat) : ℚ) + d)) total ≤ total := by
  have hd0 : (0 : ℚ) ≤ d := le_trans zero_le_one hd
  have hkd0 : (0 : ℚ) ≤ (k : ℚ) * d := mul_nonneg (by positivity) hd0
  have hfle : ((Nat.floor ((k : ℚ) * d) : Nat) : ℚ) ≤ (k : ℚ) * d := Nat.floor_le hkd0
  have hlt : ((Nat.floor ((k : ℚ) * d) : Nat) : ℚ) ≤ (total : ℚ) - 1 := by
    have : (k : ℚ) * d ≤ (total : ℚ) - d := by nlinarith
    linarith
  have hblt : Nat.floor ((k : ℚ) * d) < total := by
    have : ((Nat.floor ((k : ℚ) * d) : Nat) : ℚ) < (total : ℚ) := by linarith
    exact_mod_cast this
  have hadd : Nat.floor (((Nat.floor ((k : ℚ) * d) : Nat) : ℚ) + d) =
      Nat.floor ((k : ℚ) * d) + Nat.floor d := by
    rw [add_comm, Nat.floor_add_nat hd0]
    omega
  have hd1 : 1 ≤ Nat.floor d := Nat.le_floor (by exact_mod_cast hd)
  refine ⟨?_, min_le_right _ _⟩
  rw [hadd]
  exact lt_min (by omega) hblt

/-- One cell of the mid-gray conversion: symbol code 43 (`'+'`) and color
`(128, 128, 128)`. -/
theorem convertCell_midgray (img : RasterImage) (cols : Nat)
    (hdata : img.data = List.replicate (img.width * img.height * 4) 128)
    (hc : 1 ≤ cols) (hcw : cols ≤ img.width) (row col : Nat) (hcol : col < cols)
    (hrow : row < Nat.floor ((img.height : ℚ) /
      (((img.width : ℚ) / (cols : ℚ)) / charAspect))) :
    convertCell img cols (ASCII_RAMPS .minimal) row col = (43, (128, 128, 128)) := by
  have hc0 : (0 : ℚ) < (cols : ℚ) := by exact_mod_cast hc
  have hcellW : (1 : ℚ) ≤ (img.width : ℚ) / (cols : ℚ) :=
    (one_le_div hc0).mpr (by exact_mod_cast hcw)
  have haspect : ((img.width : ℚ) / (cols : ℚ)) / charAspect =
      2 * ((img.width : ℚ) / (cols : ℚ)) := by
    rw [show charAspect = 1 / 2 from by norm_num [charAspect]]
    ring
  have hcellH : (1 : ℚ) ≤ ((img.width : ℚ) / (cols : ℚ)) / charAspect := by
    rw [haspect]
    linarith
  have hkx : ((col : ℚ) + 1) * ((img.width : ℚ) / (cols : ℚ)) ≤ (img.width : ℚ) := by
    have h1 : ((col : ℚ) + 1) ≤ (cols : ℚ) := by exact_mod_cast hcol
    have h2 : ((col : ℚ) + 1) * ((img.width : ℚ) / (cols : ℚ)) ≤
        (cols : ℚ) * ((img.width : ℚ) / (cols : ℚ)) := by
      apply mul_le_mul_of_nonneg_right h1
      linarith
    rw [mul_div_cancel₀ (img.width : ℚ) (ne_of_gt hc0)] at h2
    exact h2
  have hky : ((row : ℚ) + 1) * (((img.width : ℚ) / (cols : ℚ)) / charAspect) ≤
      (img.height : ℚ) := by
    have hch0 : (0 : ℚ) < ((img.width : ℚ) / (cols : ℚ)) / charAspect := by linarith
    have h1 : ((row : ℚ) + 1) ≤
        (Nat.floor ((img.height : ℚ) / (((img.width : ℚ) / (cols : ℚ)) / charAspect)) : ℚ) := by
      exact_mod_cast hrow
    have h2 : (Nat.floor ((img.height : ℚ) / (((img.width : ℚ) / (cols : ℚ)) / charAspect)) : ℚ) ≤
        (img.height : ℚ) / (((img.width : ℚ) / (cols : ℚ)) / charAspect) :=
      Nat.floor_le (by positivity)
    have h3 := le_trans h1 h2
    rw [le_div_iff hch0] at h3
    exact h3
  have hx := cell_rect img.width ((img.width : ℚ) / (cols : ℚ)) col hcellW hkx
  have hy := cell_rect img.height (((img.width : ℚ) / (cols : ℚ)) / charAspect) row
    hcellH hky
  show (let cellW : ℚ := (img.width : ℚ) / (cols : ℚ)
    let cellH : ℚ := cellW / charAspect
    let baseY := Nat.floor ((row : ℚ) * cellH)
    let endY := min (Nat.floor ((baseY : ℚ) + cellH)) img.height
    let baseX := Nat.floor ((col : ℚ) * cellW)
    let endX := min (Nat.floor ((baseX : ℚ) + cellW)) img.width
    let avg := cellAvg img baseX endX baseY endY
    let lum := lumOf avg.1 avg.2.1 avg.2.2
    let charIndex := lutIndex (ASCII_RAMPS .minimal).length lum
    ((ASCII_RAMPS .minimal).getD charIndex 0, avg)) = (43, (128, 128, 128))
  simp only []
  rw [cellAvg_const img hdata _ _ _ _ hx.1 hx.2 hy.1 hy.2]
  rfl

/-- Flat-mapping a constant `replicate c` block over `range r`. -/
theorem flatMap_range_replicate {β : Type} (r c : Nat) (x : β) :
    (List.range r).flatMap (fun _ => List.replicate c x) = List.replicate (r * c) x := by
  induction r with
  | zero => simp
  | succ m ih =>
      rw [List.range_succ, List.flatMap_append, ih]
      simp only [List.flatMap_cons, List.flatMap_nil, List.append_nil]
      rw [← List.replicate_add]
      congr 1
      ring

theorem map_const_eq {α β : Type} (l : List α) (b : β) :
    l.map (fun _ => b) = List.replicate l.length b := by
  induction l with
  | nil => rfl
  | cons x xs ih => simp only [List.map_cons, ih, List.length_cons, List.replicate_succ]

theorem flatMap_congr_left {α β : Type} (l : List α) (f g : α → List β)
    (h : ∀ a ∈ l, f a = g a) : l.flatMap f = l.flatMap g := by
  induction l with
  | nil => rfl
  | cons x xs ih =>
      rw [List.flatMap_cons, List.flatMap_cons, h x (by simp),
        ih (fun a ha => h a (by simp [ha]))]

theorem flatMap_replicate_rep {α β : Type} (n k : Nat) (a : α) (c : β) (f : α → List β)
    (hf : f a = List.replicate k c) :
    (List.replicate n a).flatMap f = List.replicate (n * k) c := by
  induction n with
  | zero => simp
  | succ m ih =>
      rw [List.replicate_succ, List.flatMap_cons, hf, ih, ← List.replicate_add]
      congr 1
      ring

/-- Claim C8.  Converting a uniformly mid-gray RGB (128,128,128) raster with
the 7-symbol ramp `" .:+*#@"` gives every cell the averaged color
`(128,128,128)`, fixed-point luminance 128 and ramp index
`floor(128*7/256) = 3`, i.e. every emitted symbol is `'+'` (code 43). -/
theorem convertToASCII_midgray (img : RasterImage) (cols : Nat)
    (hdata : img.data = List.replicate (img.width * img.height * 4) 128)
    (hc : 1 ≤ cols) (hcw : cols ≤ img.width) :
    (convertToASCII img cols (ASCII_RAMPS .minimal)).chars =
      List.replicate ((convertToASCII img cols (ASCII_RAMPS .minimal)).rows * cols) 43 ∧
    (convertToASCII img cols (ASCII_RAMPS .minimal)).colors =
      List.replicate ((convertToASCII img cols (ASCII_RAMPS .minimal)).rows * cols * 3) 128 ∧
    lumOf 128 128 128 = 128 ∧
    lutIndex (ASCII_RAMPS .minimal).length 128 = 3 ∧
    (ASCII_RAMPS .minimal).getD 3 0 = 43 := by
  have hF : convertToASCII img cols (ASCII_RAMPS .minimal) =
      { chars := ((List.range (Nat.floor ((img.height : ℚ) /
            (((img.width : ℚ) / (cols : ℚ)) / charAspect)))).flatMap
            (fun row => (List.range cols).map
              (fun col => convertCell img cols (ASCII_RAMPS .minimal) row col))).map
          (fun x => x.1),
        colors := ((List.range (Nat.floor ((img.height : ℚ) /
            (((img.width : ℚ) / (cols : ℚ)) / charAspect)))).flatMap
            (fun row => (List.range cols).map
              (fun col => convertCell img cols (ASCII_RAMPS .minimal) row col))).flatMap
          (fun c => [c.2.1, c.2.2.1, c.2.2.2]),
        rows := Nat.floor ((img.height : ℚ) /
          (((img.width : ℚ) / (cols : ℚ)) / charAspect)),
        cols := cols } := rfl
  have hcells : (List.range (Nat.floor ((img.height : ℚ) /
        (((img.width : ℚ) / (cols : ℚ)) / charAspect)))).flatMap
      (fun row => (List.range cols).map
        (fun col => convertCell img cols (ASCII_RAMPS .minimal) row col)) =
      List.replicate (Nat.floor ((img.height : ℚ) /
        (((img.width : ℚ) / (cols : ℚ)) / charAspect)) * cols) (43, (128, 128, 128)) := by
    rw [flatMap_congr_left _ _ (fun _ => List.replicate cols (43, (128, 128, 128)))
      (fun row hrow => ?_), flatMap_range_replicate]
    rw [List.map_congr_left (fun col hcol => convertCell_midgray img cols hdata hc hcw
      row col (List.mem_range.mp hcol) (List.mem_range.mp hrow))]
    rw [map_const_eq, List.length_range]
  rw [hF]
  refine ⟨?_, ?_, by decide, by decide, by decide⟩
  · rw [hcells, List.map_replicate]
  · rw [hcells, flatMap_replicate_rep _ 3 (43, (128, 128, 128)) 128
      (fun c => [c.2.1, c.2.2.1, c.2.2.2]) rfl]

/-- Witness for C8: a 4×4 mid-gray raster at `cols = 2` (one 1×2 grid of
cells), every symbol `'+'` and every color 128. -/
theorem convertToASCII_midgray_witness :
    (convertToASCII ⟨List.replicate 64 128, 4, 4⟩ 2 (ASCII_RAMPS .minimal)).chars =
      List.replicate ((convertToASCII ⟨List.replicate 64 128, 4, 4⟩ 2
        (ASCII_RAMPS .minimal)).rows * 2) 43 ∧
    (convertToASCII ⟨List.replicate 64 128, 4, 4⟩ 2 (ASCII_RAMPS .minimal)).colors =
      List.replicate ((convertToASCII ⟨List.replicate 64 128, 4, 4⟩ 2
        (ASCII_RAMPS .minimal)).rows * 2 * 3) 128 ∧
    lumOf 128 128 128 = 128 ∧
    lutIndex (ASCII_RAMPS .minimal).length 128 = 3 ∧
    (ASCII_RAMPS .minimal).getD 3 0 = 43 :=
  convertToASCII_midgray ⟨List.replicate 64 128, 4, 4⟩ 2 (by decide) (by decide) (by decide)

/-! ## Binary round trip -/

/-- Structural well-formedness of one frame record with respect to the
animation's cell count `N` and color mode, per the data model: a full frame
carries exactly `N` byte-sized symbols and, in a color mode, a present
`N * 3` byte-sized color buffer; a delta frame's changes have in-range
indices, byte-sized symbols and byte-sized (or absent) color components. -/
def frameWF (ic : Bool) (N : Nat) : ASCIIFrame → Prop
  | .full chars colors =>
      chars.length = N ∧ (∀ ch ∈ chars, ch < 256) ∧
      (ic = true → colors.isSome = true ∧ (colors.getD []).length = N * 3 ∧
        ∀ v ∈ colors.getD [], v < 256)
  | .delta changes =>
      ∀ c ∈ changes, c.index < N ∧ c.char < 256 ∧
        c.colorR.getD 0 < 256 ∧ c.colorG.getD 0 < 256 ∧ c.colorB.getD 0 < 256

instance (ic : Bool) (N : Nat) (f : ASCIIFrame) : Decidable (frameWF ic N f) := by
  cases f with
  | full chars colors =>
      show Decidable (chars.length = N ∧ (∀ ch ∈ chars, ch < 256) ∧
        (ic = true → colors.isSome = true ∧ (colors.getD []).length = N * 3 ∧
          ∀ v ∈ colors.getD [], v < 256))
      infer_instance
  | delta changes =>
      show Decidable (∀ c ∈ changes, c.index < N ∧ c.char < 256 ∧
        c.colorR.getD 0 < 256 ∧ c.colorG.getD 0 < 256 ∧ c.colorB.getD 0 < 256)
      infer_instance

/-- The change record the decoder produces for an encoded change: index and
symbol unchanged; in a color mode the color components come back as
`some (original ?? 0)`, in mono they are absent. -/
def normalizeChange (ic : Bool) (c : DeltaChange) : DeltaChange :=
  if ic then
    { index := c.index, char := c.char, colorR := some (c.colorR.getD 0),
      colorG := some (c.colorG.getD 0), colorB := some (c.colorB.getD 0) }
  else
    { index := c.index, char := c.char }

/-- The frame record the decoder produces for an encoded frame: full frames
keep their buffers (mono full frames lose a color buffer the writer never
serializes), delta changes are normalized per `normalizeChange`. -/
def normalizeFrame (ic : Bool) : ASCIIFrame → ASCIIFrame
  | .full chars colors => .full chars (if ic then colors else none)
  | .delta changes => .delta (changes.map (normalizeChange ic))

theorem readVarInt_encodeVarIntFuel (fuel : Nat) :
    ∀ (n : Nat), n ≤ fuel → ∀ (rest : List Nat),
      readVarInt (encodeVarIntFuel fuel n ++ rest) = (n, rest) := by
  induction fuel with
  | zero =>
      intro n hn rest
      have hn0 : n = 0 := by omega
      subst hn0
      simp [encodeVarIntFuel, readVarInt]
  | succ f ih =>
      intro n hn rest
      by_cases h : 127 < n
      · have henc : encodeVarIntFuel (f + 1) n =
            (n % 128 + 128) :: encodeVarIntFuel f (n / 128) := by
          rw [encodeVarIntFuel, if_pos h]
        rw [henc, List.cons_append, readVarInt, if_pos (by omega),
          ih (n / 128) (by omega) rest]
        show ((n % 128 + 128) % 128 + 128 * (n / 128), rest) = (n, rest)
        rw [show (n % 128 + 128) % 128 + 128 * (n / 128) = n from by omega]
      · have henc : encodeVarIntFuel (f + 1) n = [n] := by
          rw [encodeVarIntFuel, if_neg h]
        rw [henc, List.cons_append, List.nil_append, readVarInt, if_neg (by omega),
          Nat.mod_eq_of_lt (by omega)]

/-- Varint round trip: decoding an encoded value consumes exactly its bytes
and returns the value. -/
theorem readVarInt_encodeVarInt (n : Nat) (rest : List Nat) :
    readVarInt (encodeVarInt n ++ rest) = (n, rest) :=
  readVarInt_encodeVarIntFuel n n le_rfl rest

/-- Round trip of one serialized delta change. -/
theorem readChange_writeChange (ic : Bool) (c : DeltaChange) (hch : c.char < 256)
    (hr : c.colorR.getD 0 < 256) (hg : c.colorG.getD 0 < 256) (hb : c.colorB.getD 0 < 256)
    (rest : List Nat) :
    readChange ic (encodeVarInt c.index ++ ([c.char % 256] ++
      ((if ic then [c.colorR.getD 0 % 256, c.colorG.getD 0 % 256, c.colorB.getD 0 % 256]
        else []) ++ rest))) = (normalizeChange ic c, rest) := by
  cases ic with
  | true =>
      rw [if_pos rfl]
      unfold readChange
      rw [readVarInt_encodeVarInt]
      simp [normalizeChange, Nat.mod_eq_of_lt hch, Nat.mod_eq_of_lt hr,
        Nat.mod_eq_of_lt hg, Nat.mod_eq_of_lt hb]
  | false =>
      rw [if_neg (by simp)]
      unfold readChange
      rw [readVarInt_encodeVarInt]
      simp [normalizeChange, Nat.mod_eq_of_lt hch]

theorem readChanges_succ (ic : Bool) (k : Nat) (l : List Nat) :
    readChanges ic (k + 1) l =
      ((readChange ic l).1 :: (readChanges ic k (readChange ic l).2).1,
       (readChanges ic k (readChange ic l).2).2) := rfl

/-- Round trip of a serialized change list. -/
theorem readChanges_writeChanges (ic : Bool) (changes : List DeltaChange)
    (h : ∀ c ∈ changes, c.char < 256 ∧ c.colorR.getD 0 < 256 ∧ c.colorG.getD 0 < 256 ∧
      c.colorB.getD 0 < 256) (rest : List Nat) :
    readChanges ic changes.length
      ((changes.flatMap (fun c => encodeVarInt c.index ++ [c.char % 256] ++
        (if ic then [c.colorR.getD 0 % 256, c.colorG.getD 0 % 256, c.colorB.getD 0 % 256]
         else []))) ++ rest) =
      (changes.map (normalizeChange ic), rest) := by
  induction changes with
  | nil => rfl
  | cons c cs ih =>
      have hc := h c (by simp)
      have hrec := ih (fun c' hc' => h c' (by simp [hc']))
      rw [List.length_cons, List.flatMap_cons, readChanges_succ]
      rw [show ((encodeVarInt c.index ++ [c.char % 256] ++
          (if ic then [c.colorR.getD 0 % 256, c.colorG.getD 0 % 256, c.colorB.getD 0 % 256]
           else [])) ++ (cs.flatMap (fun c => encodeVarInt c.index ++ [c.char % 256] ++
          (if ic then [c.colorR.getD 0 % 256, c.colorG.getD 0 % 256, c.colorB.getD 0 % 256]
           else []))) ++ rest) =
        encodeVarInt c.index ++ ([c.char % 256] ++
          ((if ic then [c.colorR.getD 0 % 256, c.colorG.getD 0 % 256, c.colorB.getD 0 % 256]
            else []) ++ ((cs.flatMap (fun c => encodeVarInt c.index ++ [c.char % 256] ++
          (if ic then [c.colorR.getD 0 % 256, c.colorG.getD 0 % 256, c.colorB.getD 0 % 256]
           else []))) ++ rest))) from by simp [List.append_assoc]]
      rw [readChange_writeChange ic c hc.1 hc.2.1 hc.2.2.1 hc.2.2.2]
      dsimp only
      rw [hrec]
      rfl

theorem readFrames_succ (ic : Bool) (N k : Nat) (l : List Nat) :
    readFrames ic N (k + 1) l =
      (readFrame ic N l).1 :: readFrames ic N k (readFrame ic N l).2 := rfl

theorem readFrame_cons (ic : Bool) (N t : Nat) (l : List Nat) :
    readFrame ic N (t :: l) =
      if t = 0 then readFullFrame ic N l else readDeltaBody ic l := rfl

/-- Round trip of one serialized frame record. -/
theorem readFrame_writeFrame (ic : Bool) (N : Nat) (f : ASCIIFrame)
    (hf : frameWF ic N f) (rest : List Nat) :
    readFrame ic N (writeFrame ic f ++ rest) = (normalizeFrame ic f, rest) := by
  cases f with
  | full chars colors =>
      obtain ⟨hlen, hbytes, hcol⟩ := hf
      have hchars : chars.map (· % 256) = chars :=
        map_id_of_mem (fun ch hch => Nat.mod_eq_of_lt (hbytes ch hch))
      cases ic with
      | false =>
          show readFrame false N ((0 : Nat) :: ((chars.map (· % 256) ++ []) ++ rest)) = _
          rw [readFrame_cons, if_pos rfl, List.append_nil, hchars]
          unfold readFullFrame
          rw [if_neg (by simp), List.take_left' hlen, List.drop_left' hlen]
          rfl
      | true =>
          obtain ⟨hsome, hclen, hcbytes⟩ := hcol rfl
          obtain ⟨cs, rfl⟩ : ∃ cs, colors = some cs := by
            cases colors with
            | some cs => exact ⟨cs, rfl⟩
            | none => exact absurd hsome (by simp)
          have hcs : cs.map (· % 256) = cs :=
            map_id_of_mem (fun v hv => Nat.mod_eq_of_lt (hcbytes v hv))
          have hclen' : cs.length = N * 3 := hclen
          show readFrame true N ((0 : Nat) ::
            ((chars.map (· % 256) ++ cs.map (· % 256)) ++ rest)) = _
          rw [readFrame_cons, if_pos rfl, hchars, hcs, List.append_assoc]
          unfold readFullFrame
          rw [if_pos rfl, List.take_left' hlen, List.drop_left' hlen,
            List.take_left' hclen', List.drop_left' hclen']
          rfl
  | delta changes =>
      have h : ∀ c ∈ changes, c.char < 256 ∧ c.colorR.getD 0 < 256 ∧
          c.colorG.getD 0 < 256 ∧ c.colorB.getD 0 < 256 :=
        fun c hc => ⟨(hf c hc).2.1, (hf c hc).2.2.1, (hf c hc).2.2.2.1, (hf c hc).2.2.2.2⟩
      show readFrame ic N ((1 : Nat) :: ((encodeVarInt changes.length ++
        changes.flatMap (fun c => encodeVarInt c.index ++ [c.char % 256] ++
          (if ic then [c.colorR.getD 0 % 256, c.colorG.getD 0 % 256, c.colorB.getD 0 % 256]
           else []))) ++ rest)) = _
      rw [readFrame_cons, if_neg (by omega), List.append_assoc]
      unfold readDeltaBody
      rw [readVarInt_encodeVarInt]
      dsimp only
      rw [readChanges_writeChanges ic changes h rest]
      rfl

/-- Round trip of the serialized frame sequence. -/
theorem readFrames_writeFrames (ic : Bool) (N : Nat) (frames : List ASCIIFrame)
    (h : ∀ f ∈ frames, frameWF ic N f) (rest : List Nat) :
    readFrames ic N frames.length ((frames.flatMap (writeFrame ic)) ++ rest) =
      frames.map (normalizeFrame ic) := by
  induction frames with
  | nil => rfl
  | cons f fs ih =>
      have hrec := ih (fun f' hf' => h f' (by simp [hf']))
      rw [List.length_cons, List.flatMap_cons, List.append_assoc, readFrames_succ,
        readFrame_writeFrame ic N f (h f (by simp))]
      dsimp only
      rw [hrec, List.map_cons]

/-- Applying a normalized change is the same as applying the original. -/
theorem applyChange_normalizeChange (ic : Bool) (st : List Nat × List Nat)
    (c : DeltaChange) :
    applyChange ic st (normalizeChange ic c) = applyChange ic st c := by
  cases ic <;> simp [applyChange, normalizeChange]

/-- Applying a normalized frame is the same as applying the original. -/
theorem applyFrame_normalizeFrame (ic : Bool) (st : List Nat × List Nat) (f : ASCIIFrame) :
    applyFrame ic st (normalizeFrame ic f) = applyFrame ic st f := by
  cases f with
  | full chars colors => cases ic <;> rfl
  | delta changes =>
      show (changes.map (normalizeChange ic)).foldl (applyChange ic) st =
        changes.foldl (applyChange ic) st
      induction changes generalizing st with
      | nil => rfl
      | cons c cs ih =>
          rw [List.map_cons, List.foldl_cons, List.foldl_cons,
            applyChange_normalizeChange, ih]

/-- Resolution is invariant under frame normalization. -/
theorem runFrames_normalize (ic : Bool) (frames : List ASCIIFrame) :
    ∀ st, runFrames ic st (frames.map (normalizeFrame ic)) = runFrames ic st frames := by
  induction frames with
  | nil => intro st; rfl
  | cons f fs ih =>
      intro st
      show applyFrame ic st (normalizeFrame ic f) ::
          runFrames ic (applyFrame ic st (normalizeFrame ic f)) (fs.map (normalizeFrame ic)) =
        _
      rw [applyFrame_normalizeFrame, ih]
      rfl

/-- Structural well-formedness of an animation per the data model: header
fields fit their fixed-width ranges, `frames.length = frameCount`,
`duration` is the derived `frameCount / fps` (with `fps ≥ 1`), the meta
carries no palette (the binary format cannot), the ramp is at most 255
byte-sized symbols, and every frame record is well-formed for the
animation's cell count and color mode. -/
def WellFormedAnimation (a : ASCIIAnimation) : Prop :=
  a.asciiMeta.version ≤ 255 ∧ a.asciiMeta.cols ≤ 65535 ∧ a.asciiMeta.rows ≤ 65535 ∧
  1 ≤ a.asciiMeta.fps ∧ a.asciiMeta.fps ≤ 255 ∧ a.asciiMeta.frameCount ≤ 65535 ∧
  a.frames.length = a.asciiMeta.frameCount ∧
  a.asciiMeta.duration = (a.asciiMeta.frameCount : ℚ) / (a.asciiMeta.fps : ℚ) ∧
  a.asciiMeta.palette = none ∧
  a.asciiMeta.ramp.length ≤ 255 ∧ (∀ r ∈ a.asciiMeta.ramp, r < 256) ∧
  ∀ f ∈ a.frames,
    frameWF a.asciiMeta.colorMode.includeColors (a.asciiMeta.rows * a.asciiMeta.cols) f

set_option maxRecDepth 4000 in
theorem writeBinary_drop_32 (a : ASCIIAnimation) :
    (writeBinary a).drop 32 =
      a.asciiMeta.ramp.map (· % 256) ++
        a.frames.flatMap (writeFrame a.asciiMeta.colorMode.includeColors) := rfl

/-- The writer always emits its full 32-byte header. -/
theorem writeBinary_length_ge (a : ASCIIAnimation) : 32 ≤ (writeBinary a).length := by
  unfold writeBinary
  simp only [List.length_append, List.length_cons, List.length_nil, List.length_replicate]
  omega

/-- C2 as amended.  For a well-formed animation (single-byte symbols and
colors, header fields in range, derived duration, no palette), decoding the
writer's byte stream succeeds, reproduces the meta exactly, and resolving
the decoded frames gives the same resolved-frame sequence as resolving the
original directly.  The size bound keeps the model's exact varint
arithmetic coincident with the source's 32-bit JavaScript operators. -/
theorem writeBinary_decodeBinary_roundtrip (a : ASCIIAnimation)
    (hWF : WellFormedAnimation a)
    (hsz : a.asciiMeta.rows * a.asciiMeta.cols < 2 ^ 31) :
    ∃ b : ASCIIAnimation, decodeBinary (writeBinary a) = Except.ok b ∧
      b.asciiMeta = a.asciiMeta ∧ resolveAnimation b = resolveAnimation a := by
  obtain ⟨hver, hcols, hrows, hfps1, hfps2, hfc, hflen, hdur, hpal, hrlen, hrbytes, hfWF⟩ :=
    hWF
  have h4 : (writeBinary a).getD 4 0 = a.asciiMeta.version := by
    show a.asciiMeta.version % 256 = a.asciiMeta.version
    omega
  have h5 : byteToColorMode ((writeBinary a).getD 5 0) = a.asciiMeta.colorMode := by
    show byteToColorMode (colorModeByte a.asciiMeta.colorMode) = a.asciiMeta.colorMode
    cases a.asciiMeta.colorMode <;> rfl
  have h67 : (writeBinary a).getD 6 0 + 256 * (writeBinary a).getD 7 0 =
      a.asciiMeta.cols := by
    show a.asciiMeta.cols % 256 + 256 * (a.asciiMeta.cols / 256 % 256) = a.asciiMeta.cols
    omega
  have h89 : (writeBinary a).getD 8 0 + 256 * (writeBinary a).getD 9 0 =
      a.asciiMeta.rows := by
    show a.asciiMeta.rows % 256 + 256 * (a.asciiMeta.rows / 256 % 256) = a.asciiMeta.rows
    omega
  have h10 : (writeBinary a).getD 10 0 = a.asciiMeta.fps := by
    show a.asciiMeta.fps % 256 = a.asciiMeta.fps
    omega
  have h1112 : (writeBinary a).getD 11 0 + 256 * (writeBinary a).getD 12 0 =
      a.asciiMeta.frameCount := by
    show a.asciiMeta.frameCount % 256 + 256 * (a.asciiMeta.frameCount / 256 % 256) =
      a.asciiMeta.frameCount
    omega
  have h13 : (writeBinary a).getD 13 0 = a.asciiMeta.ramp.length := by
    show a.asciiMeta.ramp.length % 256 = a.asciiMeta.ramp.length
    omega
  have hrampmap : a.asciiMeta.ramp.map (· % 256) = a.asciiMeta.ramp :=
    map_id_of_mem (fun r hr => Nat.mod_eq_of_lt (hrbytes r hr))
  have hramp : ((writeBinary a).drop 32).take ((writeBinary a).getD 13 0) =
      a.asciiMeta.ramp := by
    rw [writeBinary_drop_32, h13, hrampmap, List.take_left' rfl]
  have hdropRamp : (writeBinary a).drop (32 + (writeBinary a).getD 13 0) =
      a.frames.flatMap (writeFrame a.asciiMeta.colorMode.includeColors) := by
    rw [h13, ← List.drop_drop, writeBinary_drop_32,
      List.drop_left' (by rw [List.length_map])]
  have hframes : readFrames a.asciiMeta.colorMode.includeColors
      (a.asciiMeta.rows * a.asciiMeta.cols) a.asciiMeta.frameCount
      (a.frames.flatMap (writeFrame a.asciiMeta.colorMode.includeColors)) =
      a.frames.map (normalizeFrame a.asciiMeta.colorMode.includeColors) := by
    have h := readFrames_writeFrames a.asciiMeta.colorMode.includeColors
      (a.asciiMeta.rows * a.asciiMeta.cols) a.frames hfWF []
    rw [List.append_nil] at h
    rw [← hflen]
    exact h
  refine ⟨⟨a.asciiMeta, a.frames.map (normalizeFrame a.asciiMeta.colorMode.includeColors)⟩,
    ?_, rfl, ?_⟩
  · unfold decodeBinary
    rw [if_pos ⟨rfl, rfl, rfl, rfl⟩,
      if_neg (by have := writeBinary_length_ge a; omega)]
    apply congrArg Except.ok
    refine congrArg₂ ASCIIAnimation.mk ?_ ?_
    · show ASCIIAnimationMeta.mk ((writeBinary a).getD 4 0)
        ((writeBinary a).getD 6 0 + 256 * (writeBinary a).getD 7 0)
        ((writeBinary a).getD 8 0 + 256 * (writeBinary a).getD 9 0)
        ((writeBinary a).getD 10 0)
        ((writeBinary a).getD 11 0 + 256 * (writeBinary a).getD 12 0)
        ((((writeBinary a).getD 11 0 + 256 * (writeBinary a).getD 12 0 : Nat) : ℚ) /
          (((writeBinary a).getD 10 0 : Nat) : ℚ))
        (byteToColorMode ((writeBinary a).getD 5 0))
        (((writeBinary a).drop 32).take ((writeBinary a).getD 13 0))
        none = a.asciiMeta
      rw [h4, h5, h67, h89, h10, h1112, hramp, ← hdur, ← hpal]
    · show readFrames (byteToColorMode ((writeBinary a).getD 5 0)).includeColors
        (((writeBinary a).getD 8 0 + 256 * (writeBinary a).getD 9 0) *
          ((writeBinary a).getD 6 0 + 256 * (writeBinary a).getD 7 0))
        ((writeBinary a).getD 11 0 + 256 * (writeBinary a).getD 12 0)
        ((writeBinary a).drop (32 + (writeBinary a).getD 13 0)) =
        a.frames.map (normalizeFrame a.asciiMeta.colorMode.includeColors)
      rw [h5, h67, h89, h1112, hdropRamp, hframes]
  · show resolveAnimation ⟨a.asciiMeta,
      a.frames.map (normalizeFrame a.asciiMeta.colorMode.includeColors)⟩ =
      resolveAnimation a
    unfold resolveAnimation preDecodeFrames
    exact runFrames_normalize a.asciiMeta.colorMode.includeColors a.frames _

/-- Witness for the amended C2 at a concrete two-frame RGB animation. -/
theorem writeBinary_decodeBinary_roundtrip_witness :
    ∃ b : ASCIIAnimation,
      decodeBinary (writeBinary ⟨⟨1, 2, 1, 24, 2, ((2 : Nat) : ℚ) / ((24 : Nat) : ℚ),
        .rgb, [32, 64], none⟩,
        [.full [65, 66] (some [1, 2, 3, 4, 5, 6]),
         .delta [⟨1, 67, some 7, some 8, some 9⟩]]⟩) = Except.ok b ∧
      b.asciiMeta = (⟨⟨1, 2, 1, 24, 2, ((2 : Nat) : ℚ) / ((24 : Nat) : ℚ),
        .rgb, [32, 64], none⟩,
        [.full [65, 66] (some [1, 2, 3, 4, 5, 6]),
         .delta [⟨1, 67, some 7, some 8, some 9⟩]]⟩ : ASCIIAnimation).asciiMeta ∧
      resolveAnimation b = resolveAnimation ⟨⟨1, 2, 1, 24, 2,
        ((2 : Nat) : ℚ) / ((24 : Nat) : ℚ), .rgb, [32, 64], none⟩,
        [.full [65, 66] (some [1, 2, 3, 4, 5, 6]),
         .delta [⟨1, 67, some 7, some 8, some 9⟩]]⟩ :=
  writeBinary_decodeBinary_roundtrip ⟨⟨1, 2, 1, 24, 2, ((2 : Nat) : ℚ) / ((24 : Nat) : ℚ),
    .rgb, [32, 64], none⟩,
    [.full [65, 66] (some [1, 2, 3, 4, 5, 6]),
     .delta [⟨1, 67, some 7, some 8, some 9⟩]]⟩
    (by refine ⟨by decide, by decide, by decide, by decide, by decide, by decide, by decide,
      rfl, rfl, by decide, by decide, by decide⟩)
    (by decide)

/-- Counterexample to C2 as frozen: an animation whose meta carries a
palette does not round trip its meta through the binary format — the
decoded meta has no palette. -/
theorem writeBinary_palette_cex :
    (decodeBinary (writeBinary ⟨⟨1, 1, 1, 24, 0, ((0 : Nat) : ℚ) / ((24 : Nat) : ℚ),
        .mono, [32], some []⟩, []⟩)).toOption.map (fun b => b.asciiMeta) ≠
      some (⟨⟨1, 1, 1, 24, 0, ((0 : Nat) : ℚ) / ((24 : Nat) : ℚ),
        .mono, [32], some []⟩, []⟩ : ASCIIAnimation).asciiMeta := by
  decide
end AsciiVideo

